import Mathlib

/-!
# Verification of the vibegame core rules engine

A shallow embedding of the turn-based territorial-conquest game
(`src/vibegame`): the faction ledger (`team.py`), the territory grid
(`world/territory.py`, `world/map.py`), the action rules engine
(`actions/attack.py`, `actions/negotiate.py`), the AI spending loop
(`ai/controller.py`) and the turn/phase orchestrator (`game.py`).

Python floats are modelled as exact rationals (`ℚ`); Python object
identity for `Team` is modelled by the unique faction name, and for
`Territory` by the integer id (the spec guarantees names are unique and
ids are stable).  `dict` fields are modelled as insertion-ordered
association lists.  Random draws (`random.uniform`, `random.random`)
are passed in explicitly as oracle arguments.
-/

namespace Vibegame

/-! ## Association-list helpers (Python `dict` with insertion order) -/

/-- Lookup in an insertion-ordered association list (`d[k]` / `k in d`). -/
def alookup (al : List (String × Int)) (k : String) : Option Int :=
  match al with
  | [] => none
  | (n, v) :: rest => if n = k then some v else alookup rest k

/-- `d[k] = v`: update the value in place if the key exists (Python dicts
keep the original insertion position), otherwise append. -/
def aset (al : List (String × Int)) (k : String) (v : Int) : List (String × Int) :=
  match al with
  | [] => [(k, v)]
  | (n, w) :: rest => if n = k then (n, v) :: rest else (n, w) :: aset rest k v

/-! ## Settings (`settings.py`) -/

/-- `HAPPINESS_DECAY_RATE = 0.10` -/
def HAPPINESS_DECAY_RATE : ℚ := 1 / 10

/-- `RESOURCE_SPEND_INCREMENT = 10.0` -/
def RESOURCE_SPEND_INCREMENT : ℚ := 10

/-- `STAT_NORMALIZATION_THRESHOLD = 100_000.0` -/
def STAT_NORMALIZATION_THRESHOLD : ℚ := 100000

/-- `STAT_NORMALIZATION_DIVISOR = 1000.0` -/
def STAT_NORMALIZATION_DIVISOR : ℚ := 1000

/-- `STAT_SCALE_SUFFIXES` -/
def STAT_SCALE_SUFFIXES : List String := ["", "K", "M", "B", "T", "C", "Q"]

/-! ## Territory (`world/territory.py`) -/

/-- A single territory on the game map.  `owner` is the owning faction's
unique name (`None` ⇒ unowned). -/
structure Territory where
  id : Nat
  grid_x : Int := 0
  grid_y : Int := 0
  owner : Option String := none
  neighbor_ids : List Nat := []
deriving DecidableEq, Repr

/-- `Territory.is_adjacent_to`: `other.id in self.neighbor_ids`. -/
def Territory.is_adjacent_to (t other : Territory) : Bool :=
  t.neighbor_ids.contains other.id

/-- `Territory.is_owned`: `self.owner is not None`. -/
def Territory.is_owned (t : Territory) : Bool :=
  t.owner.isSome

/-! ## Team (`team.py`) -/

/-- A team/faction with stats and territories.  `territories` holds the
ids of the owned `Territory` objects, in insertion order. -/
structure Team where
  name : String
  is_player : Bool := false
  resources : ℚ := 100
  happiness : ℚ := 50
  military_power : ℚ := 25
  territories : List Nat := []
  alliances : List (String × Int) := []
  pending_alliance_offers : List String := []
deriving DecidableEq, Repr

/-- `Team.territory_count`: `len(self.territories)`. -/
def Team.territory_count (t : Team) : Nat :=
  t.territories.length

/-- `Team.is_eliminated`: `len(self.territories) == 0`. -/
def Team.is_eliminated (t : Team) : Bool :=
  t.territories.length = 0

/-- `Team.apply_resource_growth`: returns `(gained, updated team)`.
`gained = happiness * (territory_count / total_territories)`, added to
resources; returns `0` (and leaves the team unchanged) when
`total_territories <= 0`. -/
def Team.apply_resource_growth (t : Team) (total_territories : Int) : ℚ × Team :=
  if total_territories ≤ 0 then (0, t)
  else
    let territory_frac : ℚ := (t.territory_count : ℚ) / (total_territories : ℚ)
    let gained := t.happiness * territory_frac
    (gained, { t with resources := t.resources + gained })

/-- `Team.apply_happiness_decay`: `happiness = max(0, happiness*(1-rate))`. -/
def Team.apply_happiness_decay (t : Team) (rate : ℚ) : Team :=
  { t with happiness := max 0 (t.happiness * (1 - rate)) }

/-- `Team.spend_on_happiness`: returns `(success, updated team)`. -/
def Team.spend_on_happiness (t : Team) (amount : ℚ) : Bool × Team :=
  if t.resources ≥ amount then
    (true, { t with resources := t.resources - amount,
                    happiness := t.happiness + amount })
  else (false, t)

/-- `Team.spend_on_military`: returns `(success, updated team)`. -/
def Team.spend_on_military (t : Team) (amount : ℚ) : Bool × Team :=
  if t.resources ≥ amount then
    (true, { t with resources := t.resources - amount,
                    military_power := t.military_power + amount })
  else (false, t)

/-- `Team.is_allied_with`: `other.name in self.alliances and
self.alliances[other.name] > 0` (keyed by the other team's name). -/
def Team.is_allied_with (t : Team) (otherName : String) : Bool :=
  match alookup t.alliances otherName with
  | some v => v > 0
  | none => false

/-- `Team.form_alliance(other, duration)`: both teams pay 1/3 of their
happiness, both alliance entries are set to `duration`.  Returns the
updated `(self, other, success)`; the Python method always returns
`True`. -/
def Team.form_alliance (t other : Team) (duration : Int) : Team × Team × Bool :=
  let happiness_cost_self := t.happiness / 3
  let happiness_cost_other := other.happiness / 3
  let t1 := { t with happiness := t.happiness - happiness_cost_self }
  let other1 := { other with happiness := other.happiness - happiness_cost_other }
  let t2 := { t1 with alliances := aset t1.alliances other.name duration }
  let other2 := { other1 with alliances := aset other1.alliances t.name duration }
  (t2, other2, true)

/-- The first `for` loop of `Team.tick_alliances`: accumulate, in
iteration order, the `expired` and `names_to_remove` lists (an entry is
collected when its `turns <= 1`). -/
def tickCollect (al : List (String × Int)) : List String × List String :=
  match al with
  | [] => ([], [])
  | (n, turns) :: rest =>
    let acc := tickCollect rest
    if turns ≤ 1 then (n :: acc.1, n :: acc.2) else acc

/-- The in-place value updates of `Team.tick_alliances`' first loop:
`self.alliances[team_name] = turns - 1` for every non-expiring entry. -/
def tickDecrement (al : List (String × Int)) : List (String × Int) :=
  al.map (fun p => if p.2 ≤ 1 then p else (p.1, p.2 - 1))

/-- `Team.tick_alliances`: returns `(expired, updated team)`.  The
second loop `del self.alliances[team_name]` is modelled by filtering out
the collected keys (dict keys are unique). -/
def Team.tick_alliances (t : Team) : List String × Team :=
  let expired := (tickCollect t.alliances).1
  let names_to_remove := (tickCollect t.alliances).2
  let updated := tickDecrement t.alliances
  (expired,
   { t with alliances := updated.filter (fun p => !(names_to_remove.contains p.1)) })

/-- `Team.clear_pending_offer_from` (keyed by the offering team's name). -/
def Team.clear_pending_offer_from (t : Team) (name : String) : Team :=
  { t with pending_alliance_offers := t.pending_alliance_offers.filter (fun n => n ≠ name) }

/-- `Team.has_pending_offer_from`. -/
def Team.has_pending_offer_from (t : Team) (name : String) : Bool :=
  t.pending_alliance_offers.contains name

/-- `Team.add_pending_offer_from`: dict assignment `d[name] = True`
(no change when the key is already present). -/
def Team.add_pending_offer_from (t : Team) (name : String) : Team :=
  if t.pending_alliance_offers.contains name then t
  else { t with pending_alliance_offers := t.pending_alliance_offers ++ [name] }

/-! ## Game state

Python actions mutate `Team` and `Territory` objects through shared
references.  The embedding gathers all of them into one `GState` value;
mutations are keyed by faction name / territory id. -/

/-- The mutable world: the map's territories and all teams. -/
structure GState where
  terrs : List Territory
  teams : List Team
deriving DecidableEq, Repr

/-- Dereference a territory id (`GameMap.get_territory`). -/
def GState.findTerr (s : GState) (tid : Nat) : Option Territory :=
  s.terrs.find? (fun t => t.id == tid)

/-- Dereference a faction name. -/
def GState.findTeam (s : GState) (name : String) : Option Team :=
  s.teams.find? (fun t => t.name == name)

/-- `territory.owner = ...` on the territory with id `tid`. -/
def GState.setTerrOwner (s : GState) (tid : Nat) (o : Option String) : GState :=
  { s with terrs := s.terrs.map (fun t => if t.id = tid then { t with owner := o } else t) }

/-- Apply `f` to the team named `name`. -/
def GState.modifyTeam (s : GState) (name : String) (f : Team → Team) : GState :=
  { s with teams := s.teams.map (fun t => if t.name = name then f t else t) }

/-- `Team.add_territory` (`team.py`): if the territory is not already in
the team's list, append it and set its `owner` back-reference. -/
def GState.add_territory (s : GState) (teamName : String) (tid : Nat) : GState :=
  match s.findTeam teamName with
  | none => s
  | some team =>
    if tid ∈ team.territories then s
    else
      (s.modifyTeam teamName
        (fun t => { t with territories := t.territories ++ [tid] })).setTerrOwner
        tid (some teamName)

/-- `Team.remove_territory` (`team.py`): if the territory is in the
team's list, remove it and clear its `owner` back-reference. -/
def GState.remove_territory (s : GState) (teamName : String) (tid : Nat) : GState :=
  match s.findTeam teamName with
  | none => s
  | some team =>
    if tid ∈ team.territories then
      (s.modifyTeam teamName
        (fun t => { t with territories := t.territories.erase tid })).setTerrOwner
        tid none
    else s

/-- `GameMap.get_neighbors`: dereference `neighbor_ids`, silently
dropping ids not present in the map. -/
def GState.get_neighbors (s : GState) (tid : Nat) : List Territory :=
  match s.findTerr tid with
  | none => []
  | some t => t.neighbor_ids.filterMap (fun nid => s.findTerr nid)

/-! ## Actions (`actions/base.py`, `actions/attack.py`, `actions/negotiate.py`) -/

/-- `ActionResult` (`actions/base.py`).  `territory_changed` holds the
changed territory's id. -/
structure ActionResult where
  success : Bool
  message : String
  territory_changed : Option Nat := none
deriving DecidableEq, Repr

/-- `AttackAction`: actor and (optional) target faction names plus the
source and destination territory ids. -/
structure AttackAction where
  actor : String
  target : Option String
  from_territory : Nat
  to_territory : Nat
deriving DecidableEq, Repr

/-- `AttackAction.is_valid` (`attack.py`).  Lookups that cannot fail in
Python (the action holds live object references) default to `false`. -/
def AttackAction.is_valid (a : AttackAction) (s : GState) : Bool :=
  match s.findTerr a.from_territory, s.findTerr a.to_territory, s.findTeam a.actor with
  | some fromT, some toT, some actorTeam =>
    -- Actor must own the source territory
    if fromT.owner ≠ some a.actor then false
    -- Cannot attack own territory
    else if toT.owner = some a.actor then false
    -- Target must match the territory owner
    else if toT.owner ≠ a.target then false
    -- Cannot attack allied teams
    else if (match a.target with
             | some tn => actorTeam.is_allied_with tn
             | none => false) then false
    -- Territories must be adjacent
    else fromT.is_adjacent_to toT
  | _, _, _ => false

/-- `AttackAction.execute` (`attack.py`).  `u1`, `u2` are the two
`random.uniform(0, 5)` draws (attacker's first, in source order). -/
def AttackAction.execute (a : AttackAction) (u1 u2 : ℚ) (s : GState) :
    ActionResult × GState :=
  if ¬ a.is_valid s then (⟨false, "Invalid attack", none⟩, s)
  else
    match a.target with
    | none =>
      -- Empty territory - free capture
      let s1 := s.add_territory a.actor a.to_territory
      (⟨true, a.actor ++ " captured empty territory", some a.to_territory⟩, s1)
    | some targetName =>
      match s.findTeam a.actor, s.findTeam targetName with
      | some actorTeam, some targetTeam =>
        -- Combat resolution
        let attacker_roll := actorTeam.military_power * u1
        let defender_roll := targetTeam.military_power * u2
        if attacker_roll > defender_roll then
          -- Attacker wins - capture the territory but lose 10% military power
          let s1 := s.remove_territory targetName a.to_territory
          let s2 := s1.add_territory a.actor a.to_territory
          let s3 := s2.modifyTeam a.actor
            (fun t => { t with military_power := t.military_power * (9 / 10) })
          (⟨true, a.actor ++ " defeated " ++ targetName, some a.to_territory⟩, s3)
        else
          -- Defender wins - attacker loses 20% of military power
          let s1 := s.modifyTeam a.actor
            (fun t => { t with military_power := t.military_power * (8 / 10) })
          (⟨false, a.actor ++ "'s attack on " ++ targetName ++ " failed", none⟩, s1)
      | _, _ => (⟨false, "Invalid attack", none⟩, s)

/-- `NegotiateAction`: actor and target faction names (the target is
optional in the base class and `is_valid` checks for `None`). -/
structure NegotiateAction where
  actor : String
  target : Option String
deriving DecidableEq, Repr

/-- `NegotiateAction.count_shared_borders`: number of adjacent pairs
(actor-owned territory, target-owned neighbor), counted from the
actor's side. -/
def NegotiateAction.count_shared_borders (a : NegotiateAction) (s : GState) : Nat :=
  match a.target with
  | none => 0
  | some targetName =>
    match s.findTeam a.actor with
    | none => 0
    | some actorTeam =>
      (actorTeam.territories.map (fun tid =>
        ((s.get_neighbors tid).filter (fun nb => nb.owner == some targetName)).length)).sum

/-- `NegotiateAction.is_valid`.  `minBorders` is the configured
`ALLIANCE_MIN_SHARED_BORDERS` (imported from settings; injected
configuration, not defined in the shipped `settings.py`). -/
def NegotiateAction.is_valid (a : NegotiateAction) (minBorders : Nat) (s : GState) : Bool :=
  match a.target with
  | none => false
  | some targetName =>
    if a.actor = targetName then false
    else
      match s.findTeam a.actor with
      | none => false
      | some actorTeam =>
        -- Check if already allied
        if actorTeam.is_allied_with targetName then false
        -- Check minimum shared borders
        else a.count_shared_borders s ≥ minBorders

/-- `NegotiateAction.execute`: on validity, place the offer in the
target's `pending_alliance_offers`; on invalidity report the
shared-border shortfall when that is the failing reason. -/
def NegotiateAction.execute (a : NegotiateAction) (minBorders : Nat) (s : GState) :
    ActionResult × GState :=
  if ¬ a.is_valid minBorders s then
    let shared := a.count_shared_borders s
    if shared < minBorders then
      (⟨false, "Need " ++ toString minBorders ++ "+ shared borders (have "
          ++ toString shared ++ ")", none⟩, s)
    else (⟨false, "Invalid negotiation", none⟩, s)
  else
    match a.target with
    | none => (⟨false, "No target specified", none⟩, s)
    | some targetName =>
      let s1 := s.modifyTeam targetName (fun t => t.add_pending_offer_from a.actor)
      (⟨true, a.actor ++ " offers alliance to " ++ targetName, none⟩, s1)

/-- `AcceptAllianceAction` / `DeclineAllianceAction` share this shape:
actor (the offeree) and target (the team that sent the offer). -/
structure AllianceResponseAction where
  actor : String
  target : Option String
deriving DecidableEq, Repr

/-- `AcceptAllianceAction.is_valid`: an actual pending offer from the
target must exist. -/
def AllianceResponseAction.is_valid (a : AllianceResponseAction) (s : GState) : Bool :=
  match a.target with
  | none => false
  | some targetName =>
    match s.findTeam a.actor with
    | none => false
    | some actorTeam => actorTeam.has_pending_offer_from targetName

/-- `Team.form_alliance` lifted to the state (both teams updated). -/
def GState.form_alliance (s : GState) (selfName otherName : String) (duration : Int) :
    GState :=
  match s.findTeam selfName, s.findTeam otherName with
  | some a, some b =>
    let r := Team.form_alliance a b duration
    (s.modifyTeam selfName (fun _ => r.1)).modifyTeam otherName (fun _ => r.2.1)
  | _, _ => s

/-- `AcceptAllianceAction.execute`: clear the pending offer, then form
the alliance with the configured `ALLIANCE_DURATION`. -/
def AllianceResponseAction.executeAccept (a : AllianceResponseAction)
    (duration : Int) (s : GState) : ActionResult × GState :=
  if ¬ a.is_valid s then (⟨false, "No pending offer to accept", none⟩, s)
  else
    match a.target with
    | none => (⟨false, "No target specified", none⟩, s)
    | some targetName =>
      let s1 := s.modifyTeam a.actor (fun t => t.clear_pending_offer_from targetName)
      let s2 := s1.form_alliance a.actor targetName duration
      (⟨true, a.actor ++ " allied with " ++ targetName ++ " for "
          ++ toString duration ++ " turns!", none⟩, s2)

/-- `DeclineAllianceAction.execute`: only clear the pending offer. -/
def AllianceResponseAction.executeDecline (a : AllianceResponseAction) (s : GState) :
    ActionResult × GState :=
  if ¬ a.is_valid s then (⟨false, "No pending offer to decline", none⟩, s)
  else
    match a.target with
    | none => (⟨false, "No target specified", none⟩, s)
    | some targetName =>
      let s1 := s.modifyTeam a.actor (fun t => t.clear_pending_offer_from targetName)
      (⟨true, a.actor ++ " declined alliance with " ++ targetName, none⟩, s1)

/-! ## AI spending (`ai/controller.py`, `AIController._decide_spending`) -/

/-- One iteration of the `while` body of `_decide_spending`: a fresh
`random.random()` draw against the per-turn `happiness_frac`
(`happiness_ratio` in the source) picks the stat to buy. -/
def AIController.spend_step (team : Team) (happiness_frac : ℚ) (draw : ℚ) : Team :=
  if draw < happiness_frac then (team.spend_on_happiness RESOURCE_SPEND_INCREMENT).2
  else (team.spend_on_military RESOURCE_SPEND_INCREMENT).2

/-- The `while self.team.resources >= RESOURCE_SPEND_INCREMENT` loop of
`_decide_spending`; `draws i` is the `i`-th `random.random()` draw.
Total because each purchase removes exactly the increment. -/
def AIController.spend_loop (team : Team) (happiness_frac : ℚ) (draws : ℕ → ℚ)
    (i : ℕ) : Team :=
  if h : team.resources ≥ RESOURCE_SPEND_INCREMENT then
    AIController.spend_loop (AIController.spend_step team happiness_frac (draws i))
      happiness_frac draws (i + 1)
  else team
termination_by Nat.floor (team.resources / RESOURCE_SPEND_INCREMENT)
decreasing_by
  have hr : (AIController.spend_step team happiness_frac (draws i)).resources
      = team.resources - RESOURCE_SPEND_INCREMENT := by
    unfold AIController.spend_step Team.spend_on_happiness Team.spend_on_military
    split <;> simp [h]
  rw [hr]
  have h10 : (0 : ℚ) < RESOURCE_SPEND_INCREMENT := by norm_num [RESOURCE_SPEND_INCREMENT]
  have hd : (team.resources - RESOURCE_SPEND_INCREMENT) / RESOURCE_SPEND_INCREMENT
      = team.resources / RESOURCE_SPEND_INCREMENT - 1 := by
    field_simp
  rw [hd, Nat.floor_sub_one]
  have h1 : 1 ≤ Nat.floor (team.resources / RESOURCE_SPEND_INCREMENT) := by
    rw [Nat.one_le_floor_iff]
    rw [le_div_iff₀ h10]
    simpa using h
  omega

/-- `AIController._decide_spending`: spend all available resources on
happiness and military.  `happiness_frac` is the single
`random.uniform(0.3, 0.7)` draw made at the top of the call. -/
def AIController.decide_spending (team : Team) (happiness_frac : ℚ)
    (draws : ℕ → ℚ) : Team :=
  AIController.spend_loop team happiness_frac draws 0

/-! ## Turn/phase orchestrator (`game.py`)

The embedding covers the core orchestrator state (teams, map, phase,
winner, round bookkeeping).  The pygame presentation layer (renderer,
clock, animations, key-hold dictionaries) is outside the core and not
modelled; the two phase handlers that are driven purely by pygame input
and AI randomness (`_update_key_holds` and the
`_check_space_hold_for_eliminated_player`/`_process_ai_turn` pair) are
taken as parameters of `Game.update`. -/

/-- `GamePhase` (`game.py`). -/
inductive GamePhase where
  | PLAYER_TURN
  | AI_TURN
  | BETWEEN_TURNS
  | GAME_OVER
deriving DecidableEq, Repr

/-- The core fields of the `Game` object. -/
structure OState where
  game_map : List Territory
  teams : List Team
  current_turn : Nat := 1
  current_team_index : Nat := 0
  phase : GamePhase := GamePhase.PLAYER_TURN
  has_captured_empty_this_turn : Bool := false
  has_attacked_enemy_this_turn : Bool := false
  attacked_territories_this_turn : List Nat := []
  waiting_for_advance : Bool := false
  stat_scale_level : Nat := 0
  winner : Option String := none
  negotiation_target : Option String := none
  pending_player_offer : Option String := none
  last_action_message : Option String := none
deriving DecidableEq, Repr

/-- `GameMap.total_territories`: `len(self.territories)`. -/
def OState.total_territories (s : OState) : Nat :=
  s.game_map.length

/-- `Game._check_win_condition`: the first team owning every territory
becomes the winner and the phase moves to `GAME_OVER`. -/
def Game.check_win_condition (s : OState) : OState :=
  match s.teams.find? (fun t => t.territories.length == s.total_territories) with
  | some t => { s with winner := some t.name, phase := GamePhase.GAME_OVER }
  | none => s

/-- `Game._apply_turn_stat_changes`: for every non-eliminated team,
resource growth then happiness decay. -/
def Game.apply_turn_stat_changes (s : OState) : OState :=
  { s with teams := s.teams.map (fun team =>
      if team.is_eliminated then team
      else ((team.apply_resource_growth (s.total_territories : Int)).2).apply_happiness_decay
        HAPPINESS_DECAY_RATE) }

/-- One step of the loop in `Game._tick_alliances`: accumulates the
rebuilt team list and the (possibly updated) `last_action_message`. -/
def Game.tick_alliances_step (acc : List Team × Option String) (team : Team) :
    List Team × Option String :=
  if team.is_eliminated then (acc.1 ++ [team], acc.2)
  else
    let r := team.tick_alliances
    let msg :=
      if team.is_player = true ∧ r.1 ≠ [] ∧ acc.2 = none then
        some ("Alliance with " ++ String.intercalate ", " r.1 ++ " expired!")
      else acc.2
    (acc.1 ++ [r.2], msg)

/-- `Game._tick_alliances`: tick every non-eliminated team's alliances;
surface a message for the player's expiries. -/
def Game.tick_alliances (s : OState) : OState :=
  let r := s.teams.foldl Game.tick_alliances_step ([], s.last_action_message)
  { s with teams := r.1, last_action_message := r.2 }

/-- `Game._normalize_stats_if_needed`: when any stat of any team exceeds
the threshold, divide the three scalars of every team by the divisor and
bump the display-scale level (capped at the last suffix). -/
def Game.normalize_stats_if_needed (s : OState) : OState :=
  let needs := s.teams.any (fun t =>
    t.resources > STAT_NORMALIZATION_THRESHOLD ||
    t.happiness > STAT_NORMALIZATION_THRESHOLD ||
    t.military_power > STAT_NORMALIZATION_THRESHOLD)
  if needs then
    let teams1 := s.teams.map (fun t =>
      { t with resources := t.resources / STAT_NORMALIZATION_DIVISOR,
               happiness := t.happiness / STAT_NORMALIZATION_DIVISOR,
               military_power := t.military_power / STAT_NORMALIZATION_DIVISOR })
    let lvl := if s.stat_scale_level < STAT_SCALE_SUFFIXES.length - 1 then
      s.stat_scale_level + 1 else s.stat_scale_level
    { s with teams := teams1, stat_scale_level := lvl }
  else s

/-- `Game._find_next_active_team`: index of the next non-eliminated team
at or after `i`. -/
def Game.find_next_active_team (teams : List Team) (i : Nat) : Option Nat :=
  if h : i < teams.length then
    if (teams.get ⟨i, h⟩).is_eliminated then Game.find_next_active_team teams (i + 1)
    else some i
  else none
termination_by teams.length - i

/-- `Game._check_pending_player_offers`: surface the first pending offer
to the player whose offering team still exists. -/
def Game.check_pending_player_offers (s : OState) : OState :=
  match s.teams with
  | [] => s
  | player :: _ =>
    match player.pending_alliance_offers.find?
        (fun n => s.teams.any (fun t => t.name == n)) with
    | some n =>
      { s with pending_player_offer := some n,
               last_action_message := some (n ++ " offers alliance! Y: Accept, X: Decline") }
    | none => s

/-- `Game._start_new_turn`: end-of-round processing — stat changes,
alliance ticking, normalization, counters/flags, then hand the round to
the player or (player eliminated) the first active AI team. -/
def Game.start_new_turn (s : OState) : OState :=
  let s1 := Game.apply_turn_stat_changes s
  let s2 := Game.tick_alliances s1
  let s3 := Game.normalize_stats_if_needed s2
  let s4 := { s3 with current_turn := s3.current_turn + 1,
                      has_captured_empty_this_turn := false,
                      has_attacked_enemy_this_turn := false,
                      attacked_territories_this_turn := [],
                      waiting_for_advance := false,
                      negotiation_target := none }
  match s4.teams with
  | [] => s4
  | player :: _ =>
    if ¬ player.is_eliminated then
      Game.check_pending_player_offers
        { s4 with current_team_index := 0, phase := GamePhase.PLAYER_TURN }
    else
      let s5 := { s4 with last_action_message := none }
      match Game.find_next_active_team s5.teams 1 with
      | some i =>
        { s5 with current_team_index := i, phase := GamePhase.AI_TURN,
                  waiting_for_advance := true }
      | none => { s5 with current_team_index := s5.teams.length }

/-- `Game.update` (`game.py` lines 533–553), on the core state.  The
animation update touches only the renderer and is outside the core
state.  `key_holds` stands for the pygame-input-driven
`_update_key_holds`; `ai_step` for
`_check_space_hold_for_eliminated_player` followed by
`_process_ai_turn` (input- and randomness-driven). -/
def Game.update (key_holds ai_step : OState → OState) (s : OState) : OState :=
  if s.phase = GamePhase.GAME_OVER then s
  else
    -- Check for winner after any potential territory changes
    let s1 := Game.check_win_condition s
    if s1.phase = GamePhase.GAME_OVER then s1
    else
      match s1.phase with
      | GamePhase.PLAYER_TURN => key_holds s1
      | GamePhase.AI_TURN => ai_step s1
      | GamePhase.BETWEEN_TURNS => Game.start_new_turn s1
      | GamePhase.GAME_OVER => s1

/-! ## Ownership invariant and reachable states -/

/-- Bidirectional ownership consistency (spec §3/§8): faction names and
territory ids are unique keys, each faction's owned list is
duplicate-free, and `T ∈ F.territories ⇔ T.owner is F`. -/
def GState.consistent (s : GState) : Prop :=
  (s.teams.map Team.name).Nodup ∧
  (s.terrs.map Territory.id).Nodup ∧
  (∀ F ∈ s.teams, F.territories.Nodup) ∧
  (∀ T ∈ s.terrs, ∀ F ∈ s.teams, (T.id ∈ F.territories ↔ T.owner = some F.name))

instance (s : GState) : Decidable s.consistent := by
  unfold GState.consistent; infer_instance

/-- States reachable through the game's territory-mutation paths: the
initial setup (fresh teams, unowned map), a starting-cluster claim of an
unowned cell (`GameMap._assign_cluster` calls `add_territory` only when
`territory.owner is None`), the four actions of the rules engine, and
any per-team ledger update that leaves the name and owned list alone
(spending, growth, decay, alliance bookkeeping). -/
inductive Reachable : GState → Prop where
  | init (s : GState)
      (hnames : (s.teams.map Team.name).Nodup)
      (hids : (s.terrs.map Territory.id).Nodup)
      (hteams : ∀ F ∈ s.teams, F.territories = [])
      (hterrs : ∀ T ∈ s.terrs, T.owner = none) : Reachable s
  | claim_start (s : GState) (name : String) (tid : Nat) (h : Reachable s)
      (hunowned : ∀ T ∈ s.terrs, T.id = tid → T.owner = none) :
      Reachable (s.add_territory name tid)
  | attack (s : GState) (a : AttackAction) (u1 u2 : ℚ) (h : Reachable s) :
      Reachable (a.execute u1 u2 s).2
  | negotiate (s : GState) (a : NegotiateAction) (minBorders : Nat) (h : Reachable s) :
      Reachable (a.execute minBorders s).2
  | accept (s : GState) (a : AllianceResponseAction) (d : Int) (h : Reachable s) :
      Reachable (a.executeAccept d s).2
  | decline (s : GState) (a : AllianceResponseAction) (h : Reachable s) :
      Reachable (a.executeDecline s).2
  | ledger (s : GState) (name : String) (f : Team → Team) (h : Reachable s)
      (hf : ∀ t : Team, (f t).name = t.name ∧ (f t).territories = t.territories) :
      Reachable (s.modifyTeam name f)

/-! ## Concrete fixture states (small worlds used to instantiate the
theorems on explicit inputs) -/

/-- Territory 0, owned by faction `A`, adjacent to 1 and 2. -/
def wT0 : Territory := { id := 0, owner := some "A", neighbor_ids := [1, 2] }

/-- Territory 1, unowned, adjacent to 0. -/
def wT1 : Territory := { id := 1, owner := none, neighbor_ids := [0] }

/-- Territory 2, owned by faction `B`, adjacent to 0. -/
def wT2 : Territory := { id := 2, owner := some "B", neighbor_ids := [0] }

/-- Faction `A` with default starting stats, owning territory 0. -/
def wTeamA : Team := { name := "A", territories := [0] }

/-- Faction `B` with default starting stats, owning territory 2. -/
def wTeamB : Team := { name := "B", territories := [2] }

/-- A three-territory, two-faction world. -/
def wState : GState := { terrs := [wT0, wT1, wT2], teams := [wTeamA, wTeamB] }

/-- An orchestrator state already in the terminal phase. -/
def wOver : OState :=
  { game_map := [wT0, wT1, wT2], teams := [wTeamA, wTeamB],
    phase := GamePhase.GAME_OVER, winner := some "A" }

/-- An orchestrator state in which faction `A` owns every territory. -/
def wAllOwned : OState :=
  { game_map := [{ id := 0, owner := some "A", neighbor_ids := [1] },
                 { id := 1, owner := some "A", neighbor_ids := [0] }],
    teams := [{ name := "A", territories := [0, 1] }, { name := "B" }] }

/-- A team with a duration-1 alliance with `B` and a duration-5
alliance with `C`. -/
def wTeamTick : Team := { name := "X", alliances := [("B", 1), ("C", 5)] }

/-- A freshly-set-up world: two unowned territories, two factions with
no territories yet (the state right after team creation, before
clustered start assignment). -/
def wFresh : GState :=
  { terrs := [{ id := 0, neighbor_ids := [1] }, { id := 1, neighbor_ids := [0] }],
    teams := [{ name := "A" }, { name := "B" }] }

/-! ## Lemma library -/

theorem alookup_aset_self (al : List (String × Int)) (k : String) (v : Int) :
    alookup (aset al k v) k = some v := by
  induction al with
  | nil => simp [aset, alookup]
  | cons p rest ih =>
    by_cases h : p.1 = k
    · simp [aset, alookup, h]
    · simp [aset, alookup, h, ih]

theorem alookup_aset_ne (al : List (String × Int)) (k k' : String) (v : Int)
    (h : k' ≠ k) : alookup (aset al k v) k' = alookup al k' := by
  induction al with
  | nil => simp [aset, alookup, Ne.symm h]
  | cons p rest ih =>
    by_cases hp : p.1 = k
    · simp [aset, alookup, hp, Ne.symm h]
    · by_cases hk' : p.1 = k'
      · simp [aset, alookup, hp, hk', h]
      · simp [aset, alookup, hp, hk', ih]

theorem find?_map_comm {α : Type} (g : α → α) (p : α → Bool)
    (h : ∀ a, p (g a) = p a) (l : List α) :
    (l.map g).find? p = (l.find? p).map g := by
  induction l with
  | nil => rfl
  | cons a as ih =>
    by_cases hpa : p a
    · rw [List.map_cons, List.find?_cons_of_pos _ (by rw [h]; exact hpa),
        List.find?_cons_of_pos _ hpa]
      rfl
    · rw [List.map_cons, List.find?_cons_of_neg _ (by rw [h]; simpa using hpa),
        List.find?_cons_of_neg _ (by simpa using hpa), ih]

theorem find?_key_of_mem {α β : Type} [DecidableEq β] (key : α → β) {l : List α}
    {a : α} (hnd : (l.map key).Nodup) (hmem : a ∈ l) :
    l.find? (fun x => key x == key a) = some a := by
  induction l with
  | nil => cases hmem
  | cons b bs ih =>
    rw [List.map_cons, List.nodup_cons] at hnd
    rcases List.mem_cons.mp hmem with hh | hh
    · subst hh
      exact List.find?_cons_of_pos _ (by simp)
    · have hne : key b ≠ key a := by
        intro he
        exact hnd.1 (he ▸ List.mem_map_of_mem key hh)
      rw [List.find?_cons_of_neg _ (by simpa using hne)]
      exact ih hnd.2 hh

theorem findTeam_mem {s : GState} {n : String} {t : Team}
    (h : s.findTeam n = some t) : t ∈ s.teams ∧ t.name = n := by
  unfold GState.findTeam at h
  refine ⟨List.mem_of_find?_eq_some h, ?_⟩
  have := List.find?_some h
  simpa using this

theorem findTeam_of_mem {s : GState} {t : Team}
    (hnd : (s.teams.map Team.name).Nodup) (hmem : t ∈ s.teams) :
    s.findTeam t.name = some t :=
  find?_key_of_mem Team.name hnd hmem

theorem findTerr_mem {s : GState} {tid : Nat} {T : Territory}
    (h : s.findTerr tid = some T) : T ∈ s.terrs ∧ T.id = tid := by
  unfold GState.findTerr at h
  refine ⟨List.mem_of_find?_eq_some h, ?_⟩
  have := List.find?_some h
  simpa using this

theorem findTerr_of_mem {s : GState} {T : Territory}
    (hnd : (s.terrs.map Territory.id).Nodup) (hmem : T ∈ s.terrs) :
    s.findTerr T.id = some T :=
  find?_key_of_mem Territory.id hnd hmem

theorem findTerr_modifyTeam (s : GState) (n : String) (f : Team → Team) (tid : Nat) :
    (s.modifyTeam n f).findTerr tid = s.findTerr tid := rfl

theorem findTeam_setTerrOwner (s : GState) (tid : Nat) (o : Option String) (n : String) :
    (s.setTerrOwner tid o).findTeam n = s.findTeam n := rfl

theorem findTeam_modifyTeam_self (s : GState) (n : String) (f : Team → Team)
    (hf : ∀ t, (f t).name = t.name) :
    (s.modifyTeam n f).findTeam n = (s.findTeam n).map f := by
  unfold GState.modifyTeam GState.findTeam
  rw [find?_map_comm _ _ (fun t => by by_cases h : t.name = n <;> simp [h, hf]) _]
  rcases h : List.find? (fun t => t.name == n) s.teams with _ | t
  · simp [h]
  · have hn : t.name = n := by simpa using List.find?_some h
    simp [h, hn]

theorem findTeam_modifyTeam_ne (s : GState) (n n' : String) (f : Team → Team)
    (hf : ∀ t, (f t).name = t.name) (hne : n' ≠ n) :
    (s.modifyTeam n f).findTeam n' = s.findTeam n' := by
  unfold GState.modifyTeam GState.findTeam
  rw [find?_map_comm _ _ (fun t => by by_cases h : t.name = n <;> simp [h, hf]) _]
  rcases h : List.find? (fun t => t.name == n') s.teams with _ | t
  · simp [h]
  · have hn' : t.name = n' := by simpa using List.find?_some h
    simp [h, hn', hne]

theorem findTerr_setTerrOwner_self (s : GState) (tid : Nat) (o : Option String) :
    (s.setTerrOwner tid o).findTerr tid
      = (s.findTerr tid).map (fun T => { T with owner := o }) := by
  unfold GState.setTerrOwner GState.findTerr
  rw [find?_map_comm _ _ (fun T => by by_cases h : T.id = tid <;> simp [h]) _]
  rcases h : List.find? (fun T => T.id == tid) s.terrs with _ | T
  · simp [h]
  · have hT : T.id = tid := by simpa using List.find?_some h
    simp [h, hT]

theorem findTerr_setTerrOwner_ne (s : GState) (tid tid' : Nat) (o : Option String)
    (hne : tid' ≠ tid) :
    (s.setTerrOwner tid o).findTerr tid' = s.findTerr tid' := by
  unfold GState.setTerrOwner GState.findTerr
  rw [find?_map_comm _ _ (fun T => by by_cases h : T.id = tid <;> simp [h]) _]
  rcases h : List.find? (fun T => T.id == tid') s.terrs with _ | T
  · simp [h]
  · have hT : T.id = tid' := by simpa using List.find?_some h
    simp [h, hT, hne]

theorem team_unique {s : GState} {n : String} {team F : Team}
    (hnd : (s.teams.map Team.name).Nodup)
    (hfind : s.findTeam n = some team) (hF : F ∈ s.teams) (hFn : F.name = n) :
    F = team := by
  have h1 : s.findTeam F.name = some F := findTeam_of_mem hnd hF
  rw [hFn, hfind] at h1
  exact (Option.some_inj.mp h1).symm

theorem consistent_modifyTeam {s : GState} {n : String} {f : Team → Team}
    (hc : s.consistent)
    (hf : ∀ t ∈ s.teams, t.name = n → (f t).name = t.name ∧ (f t).territories = t.territories) :
    (s.modifyTeam n f).consistent := by
  obtain ⟨h1, h2, h3, h4⟩ := hc
  have hg : ∀ t ∈ s.teams,
      ((if t.name = n then f t else t).name = t.name ∧
       (if t.name = n then f t else t).territories = t.territories) := by
    intro t ht
    by_cases h : t.name = n
    · simpa [h] using hf t ht h
    · simp [h]
  refine ⟨?_, h2, ?_, ?_⟩
  · unfold GState.modifyTeam
    simp only [List.map_map]
    have : s.teams.map (Team.name ∘ fun t => if t.name = n then f t else t)
        = s.teams.map Team.name :=
      List.map_congr_left (fun t ht => (hg t ht).1)
    rw [this]
    exact h1
  · intro F hF
    unfold GState.modifyTeam at hF
    simp only [List.mem_map] at hF
    obtain ⟨t, ht, rfl⟩ := hF
    rw [(hg t ht).2]
    exact h3 t ht
  · intro T hT F hF
    unfold GState.modifyTeam at hT hF
    simp only [List.mem_map] at hF
    obtain ⟨t, ht, rfl⟩ := hF
    rw [(hg t ht).2, (hg t ht).1]
    exact h4 T hT t ht

theorem consistent_remove {s : GState} (n : String) (tid : Nat)
    (hc : s.consistent) : (s.remove_territory n tid).consistent := by
  unfold GState.remove_territory
  rcases hfind : s.findTeam n with _ | team <;> simp only [hfind]
  · exact hc
  by_cases hmem : tid ∈ team.territories
  swap
  · simp only [if_neg hmem]
    exact hc
  simp only [if_pos hmem]
  obtain ⟨h1, h2, h3, h4⟩ := hc
  obtain ⟨hteam_mem, hteam_name⟩ := findTeam_mem hfind
  have hTowner : ∀ T ∈ s.terrs, T.id = tid → T.owner = some n := by
    intro T hT hTid
    have := (h4 T hT team hteam_mem).mp (hTid ▸ hmem)
    rw [this, hteam_name]
  simp only [GState.consistent, GState.modifyTeam, GState.setTerrOwner]
  refine ⟨?_, ?_, ?_, ?_⟩
  · simp only [List.map_map]
    have : s.teams.map
          (Team.name ∘ fun t => if t.name = n then
            { t with territories := t.territories.erase tid } else t)
        = s.teams.map Team.name :=
      List.map_congr_left (fun t _ => by by_cases h : t.name = n <;> simp [h])
    rw [this]
    exact h1
  · simp only [List.map_map]
    have : s.terrs.map
          (Territory.id ∘ fun T => if T.id = tid then { T with owner := none } else T)
        = s.terrs.map Territory.id :=
      List.map_congr_left (fun T _ => by by_cases h : T.id = tid <;> simp [h])
    rw [this]
    exact h2
  · intro F hF
    simp only [List.mem_map] at hF
    obtain ⟨t, ht, rfl⟩ := hF
    by_cases h : t.name = n
    · simpa [h] using (h3 t ht).erase tid
    · simpa [h] using h3 t ht
  · intro T' hT' F' hF'
    simp only [List.mem_map] at hT' hF'
    obtain ⟨T, hT, rfl⟩ := hT'
    obtain ⟨F, hF, rfl⟩ := hF'
    by_cases hTid : T.id = tid <;> by_cases hFn : F.name = n
    · -- removed territory, modified team: both sides false
      have hFeq : F = team := team_unique h1 hfind hF hFn
      subst hFeq
      simp only [if_pos hTid, if_pos hFn, hTid]
      constructor
      · intro hmem'
        exact absurd ((h3 F hF).mem_erase_iff.mp hmem').1 (by simp)
      · intro hcontra
        simp at hcontra
    · -- removed territory, untouched team: both sides false
      simp only [if_pos hTid, if_neg hFn, hTid]
      constructor
      · intro hmem'
        have : T.owner = some F.name := (h4 T hT F hF).mp (hTid ▸ hmem')
        rw [hTowner T hT hTid] at this
        exact absurd (Option.some_inj.mp this).symm hFn
      · intro hcontra
        simp at hcontra
    · -- other territory, modified team
      have hFeq : F = team := team_unique h1 hfind hF hFn
      subst hFeq
      simp only [if_neg hTid, if_pos hFn]
      rw [show ({ F with territories := F.territories.erase tid } : Team).name
            = F.name from rfl]
      rw [← h4 T hT F hF]
      exact List.mem_erase_of_ne hTid
    · simp only [if_neg hTid, if_neg hFn]
      exact h4 T hT F hF

theorem consistent_add {s : GState} (n : String) (tid : Nat)
    (hc : s.consistent)
    (hunowned : ∀ T ∈ s.terrs, T.id = tid → (T.owner = none ∨ T.owner = some n)) :
    (s.add_territory n tid).consistent := by
  unfold GState.add_territory
  rcases hfind : s.findTeam n with _ | team <;> simp only [hfind]
  · exact hc
  by_cases hmem : tid ∈ team.territories
  · simp only [if_pos hmem]
    exact hc
  simp only [if_neg hmem]
  obtain ⟨h1, h2, h3, h4⟩ := hc
  obtain ⟨hteam_mem, hteam_name⟩ := findTeam_mem hfind
  simp only [GState.consistent, GState.modifyTeam, GState.setTerrOwner]
  refine ⟨?_, ?_, ?_, ?_⟩
  · simp only [List.map_map]
    have : s.teams.map
          (Team.name ∘ fun t => if t.name = n then
            { t with territories := t.territories ++ [tid] } else t)
        = s.teams.map Team.name :=
      List.map_congr_left (fun t _ => by by_cases h : t.name = n <;> simp [h])
    rw [this]
    exact h1
  · simp only [List.map_map]
    have : s.terrs.map
          (Territory.id ∘ fun T => if T.id = tid then { T with owner := some n } else T)
        = s.terrs.map Territory.id :=
      List.map_congr_left (fun T _ => by by_cases h : T.id = tid <;> simp [h])
    rw [this]
    exact h2
  · intro F hF
    simp only [List.mem_map] at hF
    obtain ⟨t, ht, rfl⟩ := hF
    by_cases h : t.name = n
    · have hteq : t = team := team_unique h1 hfind ht h
      subst hteq
      simp only [if_pos h]
      refine List.Nodup.append (h3 t ht) (List.nodup_singleton tid) ?_
      intro x hx hx'
      rw [List.mem_singleton] at hx'
      subst hx'
      exact hmem hx
    · simpa [h] using h3 t ht
  · intro T' hT' F' hF'
    simp only [List.mem_map] at hT' hF'
    obtain ⟨T, hT, rfl⟩ := hT'
    obtain ⟨F, hF, rfl⟩ := hF'
    by_cases hTid : T.id = tid <;> by_cases hFn : F.name = n
    · -- claimed territory, claiming team: both sides true
      have hFeq : F = team := team_unique h1 hfind hF hFn
      subst hFeq
      simp [if_pos hTid, if_pos hFn, hTid, hFn]
    · -- claimed territory, other team: both sides false
      rw [if_pos hTid, if_neg hFn]
      show T.id ∈ F.territories ↔ some n = some F.name
      rw [hTid]
      constructor
      · intro hmem'
        have hown : T.owner = some F.name := (h4 T hT F hF).mp (by rwa [hTid])
        rcases hunowned T hT hTid with ho | ho <;> rw [ho] at hown
        · exact absurd hown (by simp)
        · exact absurd (Option.some_inj.mp hown).symm hFn
      · intro hso
        exact absurd (Option.some_inj.mp hso).symm hFn
    · -- other territory, claiming team
      have hFeq : F = team := team_unique h1 hfind hF hFn
      subst hFeq
      simp only [if_neg hTid, if_pos hFn, List.mem_append, List.mem_singleton]
      rw [show ({ F with territories := F.territories ++ [tid] } : Team).name
            = F.name from rfl]
      rw [← h4 T hT F hF]
      simp [hTid]
    · simp only [if_neg hTid, if_neg hFn]
      exact h4 T hT F hF

theorem add_territory_noop {s : GState} {n : String} {team : Team}
    (hfind : s.findTeam n = some team) {tid : Nat} (hmem : tid ∈ team.territories) :
    s.add_territory n tid = s := by
  unfold GState.add_territory
  simp [hfind, hmem]

theorem remove_territory_noop {s : GState} {n : String} {team : Team}
    (hfind : s.findTeam n = some team) {tid : Nat} (hmem : tid ∉ team.territories) :
    s.remove_territory n tid = s := by
  unfold GState.remove_territory
  simp [hfind, hmem]

theorem attack_is_valid_elim {a : AttackAction} {s : GState}
    (h : a.is_valid s = true) :
    ∃ fromT toT actorTeam,
      s.findTerr a.from_territory = some fromT ∧
      s.findTerr a.to_territory = some toT ∧
      s.findTeam a.actor = some actorTeam ∧
      fromT.owner = some a.actor ∧
      toT.owner ≠ some a.actor ∧
      toT.owner = a.target ∧
      fromT.is_adjacent_to toT = true ∧
      (∀ tn, a.target = some tn → actorTeam.is_allied_with tn = false) := by
  unfold AttackAction.is_valid at h
  split at h
  case _ fromT toT actorTeam heq1 heq2 heq3 =>
    split_ifs at h with h1 h2 h3 h4
    refine ⟨fromT, toT, actorTeam, heq1, heq2, heq3, ?_, h2, ?_, h, ?_⟩
    · by_contra hcon
      exact h1 hcon
    · by_contra hcon
      exact h3 hcon
    · intro tn htn
      rw [htn] at h4
      simpa using h4
  case _ x y z hne =>
    cases h

theorem attack_execute_invalid (a : AttackAction) (s : GState) (u1 u2 : ℚ)
    (h : a.is_valid s = false) :
    a.execute u1 u2 s = (⟨false, "Invalid attack", none⟩, s) := by
  unfold AttackAction.execute
  simp [h]

theorem attack_execute_free (a : AttackAction) (s : GState) (u1 u2 : ℚ)
    (hv : a.is_valid s = true) (ht : a.target = none) :
    a.execute u1 u2 s
      = (⟨true, a.actor ++ " captured empty territory", some a.to_territory⟩,
         s.add_territory a.actor a.to_territory) := by
  unfold AttackAction.execute
  simp [hv, ht]

theorem attack_execute_win (a : AttackAction) (s : GState) (u1 u2 : ℚ)
    {tn : String} {actorTeam targetTeam : Team}
    (hv : a.is_valid s = true) (ht : a.target = some tn)
    (hA : s.findTeam a.actor = some actorTeam)
    (hB : s.findTeam tn = some targetTeam)
    (hgt : actorTeam.military_power * u1 > targetTeam.military_power * u2) :
    a.execute u1 u2 s
      = (⟨true, a.actor ++ " defeated " ++ tn, some a.to_territory⟩,
         ((s.remove_territory tn a.to_territory).add_territory a.actor
             a.to_territory).modifyTeam a.actor
           (fun t => { t with military_power := t.military_power * (9 / 10) })) := by
  unfold AttackAction.execute
  simp [hv, ht, hA, hB, hgt]

theorem attack_execute_lose (a : AttackAction) (s : GState) (u1 u2 : ℚ)
    {tn : String} {actorTeam targetTeam : Team}
    (hv : a.is_valid s = true) (ht : a.target = some tn)
    (hA : s.findTeam a.actor = some actorTeam)
    (hB : s.findTeam tn = some targetTeam)
    (hle : actorTeam.military_power * u1 ≤ targetTeam.military_power * u2) :
    a.execute u1 u2 s
      = (⟨false, a.actor ++ "'s attack on " ++ tn ++ " failed", none⟩,
         s.modifyTeam a.actor
           (fun t => { t with military_power := t.military_power * (8 / 10) })) := by
  unfold AttackAction.execute
  simp [hv, ht, hA, hB, not_lt.mpr hle]

theorem terr_unique {s : GState} {tid : Nat} {toT T : Territory}
    (hnd : (s.terrs.map Territory.id).Nodup)
    (hfind : s.findTerr tid = some toT) (hT : T ∈ s.terrs) (hTid : T.id = tid) :
    T = toT := by
  have h1 : s.findTerr T.id = some T := findTerr_of_mem hnd hT
  rw [hTid, hfind] at h1
  exact (Option.some_inj.mp h1).symm

theorem remove_territory_eq {s : GState} {n : String} {team : Team} {tid : Nat}
    (hfind : s.findTeam n = some team) (hmem : tid ∈ team.territories) :
    s.remove_territory n tid
      = (s.modifyTeam n
          (fun t => { t with territories := t.territories.erase tid })).setTerrOwner
          tid none := by
  unfold GState.remove_territory
  simp [hfind, hmem]

theorem add_territory_eq {s : GState} {n : String} {team : Team} {tid : Nat}
    (hfind : s.findTeam n = some team) (hmem : tid ∉ team.territories) :
    s.add_territory n tid
      = (s.modifyTeam n
          (fun t => { t with territories := t.territories ++ [tid] })).setTerrOwner
          tid (some n) := by
  unfold GState.add_territory
  simp [hfind, hmem]

theorem attack_execute_missing_target (a : AttackAction) (s : GState) (u1 u2 : ℚ)
    {tn : String} {actorTeam : Team}
    (hv : a.is_valid s = true) (ht : a.target = some tn)
    (hA : s.findTeam a.actor = some actorTeam)
    (hB : s.findTeam tn = none) :
    a.execute u1 u2 s = (⟨false, "Invalid attack", none⟩, s) := by
  unfold AttackAction.execute
  simp [hv, ht, hA, hB]

theorem consistent_attack {s : GState} (a : AttackAction) (u1 u2 : ℚ)
    (hc : s.consistent) : ((a.execute u1 u2 s).2).consistent := by
  rcases hval : a.is_valid s with _ | _
  · rw [attack_execute_invalid a s u1 u2 hval]
    exact hc
  obtain ⟨fromT, toT, actorTeam, hF, hT, hA, hfo, hto_ne, hto_eq, hadj, hnoally⟩ :=
    attack_is_valid_elim hval
  rcases ht : a.target with _ | tn
  · -- free capture of an unowned territory
    rw [attack_execute_free a s u1 u2 hval ht]
    refine consistent_add a.actor a.to_territory hc ?_
    intro T hTmem hTid
    have : T = toT := terr_unique hc.2.1 hT hTmem hTid
    subst this
    left
    rw [hto_eq, ht]
  · rcases hB : s.findTeam tn with _ | targetTeam
    · rw [attack_execute_missing_target a s u1 u2 hval ht hA hB]
      exact hc
    by_cases hgt : actorTeam.military_power * u1 > targetTeam.military_power * u2
    · -- attacker wins: remove from defender, add to attacker, 10% loss
      rw [attack_execute_win a s u1 u2 hval ht hA hB hgt]
      have htmem : a.to_territory ∈ targetTeam.territories := by
        have hTname := findTeam_mem hB
        have := (hc.2.2.2 toT (findTerr_mem hT).1 targetTeam hTname.1)
        rw [(findTerr_mem hT).2] at this
        exact this.mpr (by rw [hto_eq, ht, hTname.2])
      have hs1 : s.remove_territory tn a.to_territory
          = (s.modifyTeam tn
              (fun t => { t with territories := t.territories.erase a.to_territory })).setTerrOwner
              a.to_territory none := remove_territory_eq hB htmem
      have hc1 : (s.remove_territory tn a.to_territory).consistent :=
        consistent_remove tn a.to_territory hc
      have hunowned1 : ∀ T ∈ (s.remove_territory tn a.to_territory).terrs,
          T.id = a.to_territory → (T.owner = none ∨ T.owner = some a.actor) := by
        rw [hs1]
        intro T hTm hTid
        simp only [GState.setTerrOwner, GState.modifyTeam, List.mem_map] at hTm
        obtain ⟨T0, hT0, rfl⟩ := hTm
        by_cases h : T0.id = a.to_territory
        · simp [h]
        · rw [if_neg h] at hTid
          exact absurd hTid h
      have hc2 := consistent_add a.actor a.to_territory hc1 hunowned1
      exact consistent_modifyTeam hc2 (fun t _ _ => ⟨rfl, rfl⟩)
    · -- defender wins: only the attacker's military power changes
      rw [attack_execute_lose a s u1 u2 hval ht hA hB (not_lt.mp hgt)]
      exact consistent_modifyTeam hc (fun t _ _ => ⟨rfl, rfl⟩)

theorem consistent_form_alliance {s : GState} (n m : String) (d : Int)
    (hc : s.consistent) : (s.form_alliance n m d).consistent := by
  unfold GState.form_alliance
  rcases hA : s.findTeam n with _ | A <;> simp only [hA]
  · exact hc
  rcases hB : s.findTeam m with _ | B <;> simp only [hB]
  · exact hc
  have hA' := findTeam_mem hA
  have hB' := findTeam_mem hB
  have hc1 : (s.modifyTeam n (fun _ => (Team.form_alliance A B d).1)).consistent := by
    refine consistent_modifyTeam hc ?_
    intro t ht htn
    have hteq : t = A := team_unique hc.1 hA ht htn
    subst hteq
    exact ⟨rfl, rfl⟩
  refine consistent_modifyTeam hc1 ?_
  intro t ht htm
  refine ⟨?_, ?_⟩
  · show B.name = t.name
    rw [hB'.2, htm]
  · show B.territories = t.territories
    simp only [GState.modifyTeam, List.mem_map] at ht
    obtain ⟨t0, ht0, rfl⟩ := ht
    by_cases hn : t0.name = n
    · rw [if_pos hn] at htm ⊢
      have hAB : A = B := team_unique hc.1 hB hA'.1 (show A.name = m from htm)
      show B.territories = A.territories
      rw [hAB]
    · rw [if_neg hn] at htm ⊢
      have ht0B : t0 = B := team_unique hc.1 hB ht0 htm
      rw [ht0B]

theorem consistent_negotiate {s : GState} (a : NegotiateAction) (minBorders : Nat)
    (hc : s.consistent) : ((a.execute minBorders s).2).consistent := by
  unfold NegotiateAction.execute
  split
  · dsimp only
    split <;> exact hc
  · split
    · exact hc
    · refine consistent_modifyTeam hc ?_
      intro t _ _
      constructor
      · unfold Team.add_pending_offer_from
        split <;> rfl
      · unfold Team.add_pending_offer_from
        split <;> rfl

theorem consistent_accept {s : GState} (a : AllianceResponseAction) (d : Int)
    (hc : s.consistent) : ((a.executeAccept d s).2).consistent := by
  unfold AllianceResponseAction.executeAccept
  split
  · exact hc
  · split
    · exact hc
    · exact consistent_form_alliance _ _ d
        (consistent_modifyTeam hc (fun t _ _ => ⟨rfl, rfl⟩))

theorem consistent_decline {s : GState} (a : AllianceResponseAction)
    (hc : s.consistent) : ((a.executeDecline s).2).consistent := by
  unfold AllianceResponseAction.executeDecline
  split
  · exact hc
  · split
    · exact hc
    · exact consistent_modifyTeam hc (fun t _ _ => ⟨rfl, rfl⟩)

theorem reachable_consistent {s : GState} (h : Reachable s) : s.consistent := by
  induction h with
  | init s hnames hids hteams hterrs =>
    refine ⟨hnames, hids, ?_, ?_⟩
    · intro F hF
      rw [hteams F hF]
      exact List.nodup_nil
    · intro T hT F hF
      rw [hteams F hF, hterrs T hT]
      simp
  | claim_start s name tid h hunowned ih =>
    exact consistent_add name tid ih (fun T hT hTid => Or.inl (hunowned T hT hTid))
  | attack s a u1 u2 h ih =>
    exact consistent_attack a u1 u2 ih
  | negotiate s a minBorders h ih =>
    exact consistent_negotiate a minBorders ih
  | accept s a d h ih =>
    exact consistent_accept a d ih
  | decline s a h ih =>
    exact consistent_decline a ih
  | ledger s n f h hf ih =>
    exact consistent_modifyTeam ih (fun t _ _ => ⟨(hf t).1, (hf t).2⟩)

theorem tickCollect_eq_parts (al : List (String × Int)) :
    (tickCollect al).2 = (tickCollect al).1 := by
  induction al with
  | nil => rfl
  | cons p rest ih =>
    rcases p with ⟨n, turns⟩
    by_cases h : turns ≤ 1 <;> simp [tickCollect, h, ih]

theorem tickCollect_fst (al : List (String × Int)) :
    (tickCollect al).1 = (al.filter (fun p => decide (p.2 ≤ 1))).map Prod.fst := by
  induction al with
  | nil => rfl
  | cons p rest ih =>
    rcases p with ⟨n, turns⟩
    by_cases h : turns ≤ 1 <;> simp [tickCollect, List.filter_cons, h, ih]

theorem tickDecrement_map_fst (al : List (String × Int)) :
    (tickDecrement al).map Prod.fst = al.map Prod.fst := by
  unfold tickDecrement
  rw [List.map_map]
  exact List.map_congr_left (fun p _ => by by_cases h : p.2 ≤ 1 <;> simp [h])

theorem tickCollect_subset_fst (al : List (String × Int)) :
    ∀ x ∈ (tickCollect al).2, x ∈ al.map Prod.fst := by
  induction al with
  | nil => intro x hx; cases hx
  | cons p rest ih =>
    rcases p with ⟨n, turns⟩
    intro x hx
    by_cases h : turns ≤ 1
    · simp only [tickCollect, if_pos h] at hx
      rcases List.mem_cons.mp hx with hh | hh
      · simp [hh]
      · simp [ih x hh]
    · simp only [tickCollect, if_neg h] at hx
      simp [ih x hx]

theorem tick_alliances_expired (t : Team) :
    (t.tick_alliances).1
      = (t.alliances.filter (fun p => decide (p.2 ≤ 1))).map Prod.fst := by
  unfold Team.tick_alliances
  exact tickCollect_fst t.alliances

theorem tick_filter_eq (al : List (String × Int)) (hnd : (al.map Prod.fst).Nodup) :
    (tickDecrement al).filter (fun p => !((tickCollect al).2.contains p.1))
      = (al.filter (fun p => decide (1 < p.2))).map (fun p => (p.1, p.2 - 1)) := by
  induction al with
  | nil => rfl
  | cons p rest ih =>
    rcases p with ⟨n, turns⟩
    rw [List.map_cons, List.nodup_cons] at hnd
    have hrest := ih hnd.2
    by_cases h : turns ≤ 1
    · -- head expires: it is dropped, and its name bans nothing in the tail
      have hC : (tickCollect ((n, turns) :: rest)).2 = n :: (tickCollect rest).2 := by
        simp [tickCollect, h]
      have hD : tickDecrement ((n, turns) :: rest) = (n, turns) :: tickDecrement rest := by
        simp [tickDecrement, h]
      have hfix : (tickDecrement rest).filter
            (fun p => !(p.1 == n || (tickCollect rest).2.contains p.1))
          = (tickDecrement rest).filter
            (fun p => !((tickCollect rest).2.contains p.1)) := by
        refine List.filter_congr ?_
        intro q hq
        have hq1 : q.1 ∈ (tickDecrement rest).map Prod.fst :=
          List.mem_map_of_mem Prod.fst hq
        rw [tickDecrement_map_fst] at hq1
        have hqn : q.1 ≠ n := fun he => hnd.1 (he ▸ hq1)
        simp [hqn]
      rw [hC, hD, List.filter_cons, List.filter_cons]
      simp only [List.contains_cons, beq_self_eq_true, Bool.true_or, Bool.not_true,
        decide_eq_false (not_lt.mpr h), Bool.false_eq_true, if_false]
      rw [hfix]
      exact hrest
    · -- head survives: decremented and kept
      have hC : (tickCollect ((n, turns) :: rest)).2 = (tickCollect rest).2 := by
        simp [tickCollect, h]
      have hD : tickDecrement ((n, turns) :: rest)
          = (n, turns - 1) :: tickDecrement rest := by
        simp [tickDecrement, h]
      have hnotin : ((tickCollect rest).2.contains n) = false := by
        have hmemno : n ∉ (tickCollect rest).2 := fun hin =>
          hnd.1 (tickCollect_subset_fst rest n hin)
        simp [hmemno]
      rw [hC, hD, List.filter_cons, List.filter_cons]
      simp only [hnotin, Bool.not_false, if_true,
        decide_eq_true (not_le.mp h), List.map_cons]
      rw [hrest]

theorem tick_alliances_post {t : Team}
    (hnd : (t.alliances.map Prod.fst).Nodup) :
    (t.tick_alliances).2.alliances
      = (t.alliances.filter (fun p => decide (1 < p.2))).map
          (fun p => (p.1, p.2 - 1)) := by
  unfold Team.tick_alliances
  exact tick_filter_eq t.alliances hnd

theorem alookup_eq_none_of_not_mem {al : List (String × Int)} {n : String}
    (h : n ∉ al.map Prod.fst) : alookup al n = none := by
  induction al with
  | nil => rfl
  | cons p rest ih =>
    rw [List.map_cons] at h
    simp only [List.mem_cons, not_or] at h
    have hne : p.1 ≠ n := fun he => h.1 he.symm
    simp [alookup, hne, ih h.2]

theorem alookup_some_mem {al : List (String × Int)} {n : String} {d : Int}
    (h : alookup al n = some d) : (n, d) ∈ al := by
  induction al with
  | nil => cases h
  | cons p rest ih =>
    rcases p with ⟨m, e⟩
    unfold alookup at h
    split_ifs at h with hp
    · obtain rfl := Option.some_inj.mp h
      subst hp
      exact List.mem_cons_self _ _
    · exact List.mem_cons_of_mem _ (ih h)

theorem alookup_filter_decrement (al : List (String × Int))
    (hnd : (al.map Prod.fst).Nodup) (n : String) :
    alookup ((al.filter (fun p => decide (1 < p.2))).map (fun p => (p.1, p.2 - 1))) n
      = match alookup al n with
        | some d => if 1 < d then some (d - 1) else none
        | none => none := by
  induction al with
  | nil => rfl
  | cons p rest ih =>
    rw [List.map_cons, List.nodup_cons] at hnd
    rcases p with ⟨m, d⟩
    by_cases hmn : m = n
    · subst hmn
      by_cases hd : 1 < d
      · simp [List.filter_cons, decide_eq_true hd, alookup, hd]
      · have hfst : ((rest.filter (fun p => decide (1 < p.2))).map
              (fun p => (p.1, p.2 - 1))).map Prod.fst
            = (rest.filter (fun p => decide (1 < p.2))).map Prod.fst := by
          rw [List.map_map]
          exact List.map_congr_left (fun q _ => rfl)
        have hnone : alookup ((rest.filter (fun p => decide (1 < p.2))).map
            (fun p => (p.1, p.2 - 1))) m = none := by
          refine alookup_eq_none_of_not_mem ?_
          rw [hfst]
          intro hmem
          exact hnd.1 (List.map_subset Prod.fst (List.filter_subset' _) hmem)
        simp [List.filter_cons, decide_eq_false hd, alookup, hd, hnone]
    · by_cases hd : 1 < d
      · simp [List.filter_cons, decide_eq_true hd, alookup, hmn, ih hnd.2]
      · simp [List.filter_cons, decide_eq_false hd, alookup, hmn, ih hnd.2]

theorem tick_preserves_nodup {t : Team}
    (hnd : (t.alliances.map Prod.fst).Nodup) :
    ((t.tick_alliances).2.alliances.map Prod.fst).Nodup := by
  rw [tick_alliances_post hnd, List.map_map]
  have heq : ((t.alliances.filter (fun p => decide (1 < p.2))).map
        (Prod.fst ∘ fun p => (p.1, p.2 - 1)))
      = (t.alliances.filter (fun p => decide (1 < p.2))).map Prod.fst :=
    List.map_congr_left (fun q _ => rfl)
  rw [heq]
  exact List.Nodup.sublist (List.Sublist.map _ (List.filter_sublist _)) hnd

theorem tick_expired_of_due {t : Team} {n : String} {d : Int}
    (hl : alookup t.alliances n = some d) (hd : d ≤ 1) :
    n ∈ (t.tick_alliances).1 := by
  rw [tick_alliances_expired]
  exact List.mem_map_of_mem Prod.fst
    (List.mem_filter.mpr ⟨alookup_some_mem hl, by simpa using hd⟩)

theorem tick_iter_lookup (n : String) :
    ∀ (k : Nat) (t : Team) (d : Int),
      (t.alliances.map Prod.fst).Nodup →
      alookup t.alliances n = some d → (k : Int) < d →
      alookup (((fun u : Team => (u.tick_alliances).2)^[k] t).alliances) n
          = some (d - k) ∧
      ((((fun u : Team => (u.tick_alliances).2)^[k] t).alliances.map Prod.fst).Nodup) := by
  intro k
  induction k with
  | zero =>
    intro t d hnd hl _
    simpa using ⟨hl, hnd⟩
  | succ k ih =>
    intro t d hnd hl hk
    rw [Function.iterate_succ_apply]
    have hd1 : 1 < d := by
      have : (0 : Int) ≤ (k : Int) := Int.natCast_nonneg k
      omega
    have h1 : alookup ((t.tick_alliances).2).alliances n = some (d - 1) := by
      rw [tick_alliances_post hnd, alookup_filter_decrement _ hnd n, hl]
      simp [hd1]
    have hk' : (k : Int) < d - 1 := by
      push_cast at hk
      omega
    have := ih ((t.tick_alliances).2) (d - 1) (tick_preserves_nodup hnd) h1 hk'
    refine ⟨?_, this.2⟩
    rw [this.1]
    congr 1
    push_cast
    ring

theorem tick_iter_expire (n : String) (t : Team) (d : Int)
    (hnd : (t.alliances.map Prod.fst).Nodup)
    (hl : alookup t.alliances n = some d) (hd : 1 ≤ d) :
    alookup (((fun u : Team => (u.tick_alliances).2)^[d.toNat] t).alliances) n
      = none := by
  obtain ⟨k, hk⟩ : ∃ k : Nat, d.toNat = k + 1 := ⟨d.toNat - 1, by omega⟩
  have hk0 : (k : Int) < d := by omega
  rw [hk, Function.iterate_succ_apply']
  have hmain := tick_iter_lookup n k t d hnd hl hk0
  have hval : d - (k : Int) = 1 := by omega
  rw [hval] at hmain
  rw [tick_alliances_post hmain.2, alookup_filter_decrement _ hmain.2 n, hmain.1]
  simp

theorem spend_step_resources (team : Team) (hf d : ℚ)
    (h : RESOURCE_SPEND_INCREMENT ≤ team.resources) :
    (AIController.spend_step team hf d).resources
      = team.resources - RESOURCE_SPEND_INCREMENT := by
  unfold AIController.spend_step Team.spend_on_happiness Team.spend_on_military
  split <;> simp [h]

theorem spend_step_sum (team : Team) (hf d : ℚ) :
    (AIController.spend_step team hf d).resources
        + (AIController.spend_step team hf d).happiness
        + (AIController.spend_step team hf d).military_power
      = team.resources + team.happiness + team.military_power := by
  unfold AIController.spend_step Team.spend_on_happiness Team.spend_on_military
  split <;> split_ifs <;> simp <;> ring

theorem spend_step_mono (team : Team) (hf d : ℚ) :
    team.happiness ≤ (AIController.spend_step team hf d).happiness ∧
    team.military_power ≤ (AIController.spend_step team hf d).military_power := by
  have hInc : (0 : ℚ) ≤ RESOURCE_SPEND_INCREMENT := by
    norm_num [RESOURCE_SPEND_INCREMENT]
  unfold AIController.spend_step Team.spend_on_happiness Team.spend_on_military
  split <;> split_ifs <;> constructor <;> simp <;> linarith

theorem spend_loop_post : ∀ (N : Nat) (team : Team) (hf : ℚ) (draws : ℕ → ℚ) (i : ℕ),
    Nat.floor (team.resources / RESOURCE_SPEND_INCREMENT) ≤ N →
    (AIController.spend_loop team hf draws i).resources < RESOURCE_SPEND_INCREMENT ∧
    (AIController.spend_loop team hf draws i).resources
        + (AIController.spend_loop team hf draws i).happiness
        + (AIController.spend_loop team hf draws i).military_power
      = team.resources + team.happiness + team.military_power ∧
    team.happiness ≤ (AIController.spend_loop team hf draws i).happiness ∧
    team.military_power ≤ (AIController.spend_loop team hf draws i).military_power := by
  have h10 : (0 : ℚ) < RESOURCE_SPEND_INCREMENT := by
    norm_num [RESOURCE_SPEND_INCREMENT]
  intro N
  induction N with
  | zero =>
    intro team hf draws i hN
    have hguard : ¬ team.resources ≥ RESOURCE_SPEND_INCREMENT := by
      intro hg
      have h1 : 1 ≤ Nat.floor (team.resources / RESOURCE_SPEND_INCREMENT) := by
        rw [Nat.one_le_floor_iff, le_div_iff₀ h10]
        simpa using hg
      omega
    rw [AIController.spend_loop, dif_neg hguard]
    exact ⟨not_le.mp hguard, rfl, le_refl _, le_refl _⟩
  | succ N ih =>
    intro team hf draws i hN
    by_cases hguard : team.resources ≥ RESOURCE_SPEND_INCREMENT
    · rw [AIController.spend_loop, dif_pos hguard]
      have hres := spend_step_resources team hf (draws i) hguard
      have hfloor : Nat.floor ((AIController.spend_step team hf
          (draws i)).resources / RESOURCE_SPEND_INCREMENT) ≤ N := by
        rw [hres, show (team.resources - RESOURCE_SPEND_INCREMENT)
              / RESOURCE_SPEND_INCREMENT
            = team.resources / RESOURCE_SPEND_INCREMENT - 1 from by
          field_simp]
        rw [Nat.floor_sub_one]
        omega
      have hrec := ih (AIController.spend_step team hf (draws i)) hf draws (i + 1) hfloor
      refine ⟨hrec.1, ?_, ?_, ?_⟩
      · rw [hrec.2.1]
        exact spend_step_sum team hf (draws i)
      · exact le_trans (spend_step_mono team hf (draws i)).1 hrec.2.2.1
      · exact le_trans (spend_step_mono team hf (draws i)).2 hrec.2.2.2
    · rw [AIController.spend_loop, dif_neg hguard]
      exact ⟨not_le.mp hguard, rfl, le_refl _, le_refl _⟩

theorem check_win_phase_iff (s : OState) (h : s.phase ≠ GamePhase.GAME_OVER) :
    (Game.check_win_condition s).phase = GamePhase.GAME_OVER
      ↔ ∃ t ∈ s.teams, t.territories.length = s.total_territories := by
  unfold Game.check_win_condition
  rcases hfind : s.teams.find?
      (fun t => t.territories.length == s.total_territories) with _ | t
  · simp only [hfind]
    constructor
    · intro hph
      exact absurd hph h
    · rintro ⟨t, ht, hlen⟩
      rw [List.find?_eq_none] at hfind
      exact absurd (by simpa using hlen) (by simpa using hfind t ht)
  · simp only [hfind]
    constructor
    · intro _
      exact ⟨t, List.mem_of_find?_eq_some hfind,
             by simpa using List.find?_some hfind⟩
    · intro _
      trivial

theorem check_win_fired (s : OState) (t : Team)
    (hfind : s.teams.find? (fun t => t.territories.length == s.total_territories)
        = some t) :
    (Game.check_win_condition s).winner = some t.name ∧
    (Game.check_win_condition s).phase = GamePhase.GAME_OVER := by
  unfold Game.check_win_condition
  simp [hfind]

theorem update_terminal (key_holds ai_step : OState → OState) (s : OState)
    (h : s.phase = GamePhase.GAME_OVER) :
    Game.update key_holds ai_step s = s := by
  unfold Game.update
  simp [h]

theorem alookup_of_mem_nodup {al : List (String × Int)}
    (hnd : (al.map Prod.fst).Nodup) {p : String × Int} (hp : p ∈ al) :
    alookup al p.1 = some p.2 := by
  induction al with
  | nil => cases hp
  | cons q rest ih =>
    rw [List.map_cons, List.nodup_cons] at hnd
    rcases List.mem_cons.mp hp with hh | hh
    · subst hh
      simp [alookup]
    · have hne : q.1 ≠ p.1 := by
        intro he
        exact hnd.1 (he ▸ List.mem_map_of_mem Prod.fst hh)
      simp only [alookup, if_neg hne]
      exact ih hnd.2 hh

/-! ## Claim theorems -/

/-- C7: `spend_on_happiness(amount)` and `spend_on_military(amount)`
return `false` and mutate nothing when `resources < amount`; otherwise
(including the exact boundary `resources = amount`) they return `true`,
subtract `amount` from resources and add exactly `amount` to the target
stat - a 1:1 transfer that conserves the sum of resources and the
target stat. -/
theorem c7_spend_transfer (t : Team) (amount : ℚ) :
    (t.resources < amount →
      t.spend_on_happiness amount = (false, t) ∧
      t.spend_on_military amount = (false, t)) ∧
    (amount ≤ t.resources →
      (t.spend_on_happiness amount).1 = true ∧
      (t.spend_on_happiness amount).2.resources = t.resources - amount ∧
      (t.spend_on_happiness amount).2.happiness = t.happiness + amount ∧
      (t.spend_on_happiness amount).2.military_power = t.military_power ∧
      (t.spend_on_happiness amount).2.resources
          + (t.spend_on_happiness amount).2.happiness
        = t.resources + t.happiness ∧
      (t.spend_on_military amount).1 = true ∧
      (t.spend_on_military amount).2.resources = t.resources - amount ∧
      (t.spend_on_military amount).2.military_power = t.military_power + amount ∧
      (t.spend_on_military amount).2.happiness = t.happiness ∧
      (t.spend_on_military amount).2.resources
          + (t.spend_on_military amount).2.military_power
        = t.resources + t.military_power) := by
  constructor
  · intro h
    have h' : ¬ t.resources ≥ amount := not_le.mpr h
    unfold Team.spend_on_happiness Team.spend_on_military
    simp [h']
  · intro h
    have h' : t.resources ≥ amount := h
    unfold Team.spend_on_happiness Team.spend_on_military
    refine ⟨by simp [h'], by simp [h'], by simp [h'], by simp [h'],
            by simp [h'], by simp [h'], by simp [h'], by simp [h'],
            by simp [h'], by simp [h']⟩

/-- Witness for C7 at a concrete team: failure at resources 5 < 10, and
the exact-equal boundary resources 10 = amount succeeds. -/
theorem c7_spend_transfer_witness :
    (({ name := "A", resources := 5 } : Team).spend_on_happiness 10
        = (false, { name := "A", resources := 5 })) ∧
    ((({ name := "A", resources := 10 } : Team).spend_on_happiness 10).1 = true) := by
  constructor
  · exact ((c7_spend_transfer { name := "A", resources := 5 } 10).1 (by norm_num)).1
  · exact ((c7_spend_transfer { name := "A", resources := 10 } 10).2 (by norm_num)).1

/-- C8: `apply_resource_growth(total_territories)` returns
`happiness * (territory_count / total_territories)`, adds exactly that
amount to resources, leaves happiness and military power unchanged,
returns 0 and changes nothing when `total_territories ≤ 0`, returns
25 when happiness is 50 with 40 of 80 territories, and returns 0 with
0 owned territories. -/
theorem c8_resource_growth (t : Team) (total : Int) :
    (total ≤ 0 → t.apply_resource_growth total = (0, t)) ∧
    (0 < total →
      (t.apply_resource_growth total).1
          = t.happiness * ((t.territory_count : ℚ) / (total : ℚ)) ∧
      (t.apply_resource_growth total).2.resources
          = t.resources + (t.apply_resource_growth total).1 ∧
      (t.apply_resource_growth total).2.happiness = t.happiness ∧
      (t.apply_resource_growth total).2.military_power = t.military_power) ∧
    (t.happiness = 50 → t.territory_count = 40 → total = 80 →
      (t.apply_resource_growth total).1 = 25 ∧
      (t.apply_resource_growth total).2.resources = t.resources + 25) ∧
    (t.territory_count = 0 → 0 < total → (t.apply_resource_growth total).1 = 0) := by
  refine ⟨?_, ?_, ?_, ?_⟩
  · intro h
    unfold Team.apply_resource_growth
    simp [h]
  · intro h
    have h' : ¬ total ≤ 0 := not_le.mpr h
    unfold Team.apply_resource_growth
    simp [h']
  · intro hh hcnt htot
    subst htot
    unfold Team.apply_resource_growth
    norm_num [hh, hcnt]
  · intro hcnt h
    have h' : ¬ total ≤ 0 := not_le.mpr h
    unfold Team.apply_resource_growth
    simp [h', hcnt]

/-- Witness for C8: happiness 50, 40 of 80 territories gains exactly 25. -/
theorem c8_resource_growth_witness :
    (({ name := "A", happiness := 50, territories := List.range 40 } : Team).apply_resource_growth
        80).1 = 25 := by
  refine ((c8_resource_growth
      { name := "A", happiness := 50, territories := List.range 40 } 80).2.2.1
    rfl ?_ rfl).1
  decide

/-- C6: `form_alliance(other, duration)` always succeeds (returns
true), unconditionally deducts exactly 1/3 of each side's current
happiness from that side (other stats untouched), and sets both
alliance entries symmetrically to `duration`; concretely, happiness 90
and 60 at duration 15 yield 60 and 40 with both entries 15. -/
theorem c6_form_alliance (a b : Team) (duration : Int) :
    ((a.form_alliance b duration).2.2 = true) ∧
    ((a.form_alliance b duration).1.happiness = a.happiness - a.happiness / 3) ∧
    ((a.form_alliance b duration).2.1.happiness = b.happiness - b.happiness / 3) ∧
    (alookup (a.form_alliance b duration).1.alliances b.name = some duration) ∧
    (alookup (a.form_alliance b duration).2.1.alliances a.name = some duration) ∧
    ((a.form_alliance b duration).1.resources = a.resources) ∧
    ((a.form_alliance b duration).1.military_power = a.military_power) ∧
    ((a.form_alliance b duration).2.1.resources = b.resources) ∧
    ((a.form_alliance b duration).2.1.military_power = b.military_power) ∧
    (a.happiness = 90 → b.happiness = 60 → duration = 15 →
      (a.form_alliance b duration).1.happiness = 60 ∧
      (a.form_alliance b duration).2.1.happiness = 40 ∧
      alookup (a.form_alliance b duration).1.alliances b.name = some 15 ∧
      alookup (a.form_alliance b duration).2.1.alliances a.name = some 15) := by
  refine ⟨rfl, rfl, rfl, alookup_aset_self _ _ _, alookup_aset_self _ _ _,
          rfl, rfl, rfl, rfl, ?_⟩
  intro ha hb hd
  subst hd
  refine ⟨?_, ?_, alookup_aset_self _ _ _, alookup_aset_self _ _ _⟩
  · show a.happiness - a.happiness / 3 = 60
    rw [ha]
    norm_num
  · show b.happiness - b.happiness / 3 = 40
    rw [hb]
    norm_num

/-- Witness for C6 on the concrete pair from the spec. -/
theorem c6_form_alliance_witness :
    ((({ name := "A", happiness := 90 } : Team).form_alliance
        { name := "B", happiness := 60 } 15).1.happiness = 60) ∧
    ((({ name := "A", happiness := 90 } : Team).form_alliance
        { name := "B", happiness := 60 } 15).2.1.happiness = 40) ∧
    (alookup (({ name := "A", happiness := 90 } : Team).form_alliance
        { name := "B", happiness := 60 } 15).1.alliances "B" = some 15) ∧
    (alookup (({ name := "A", happiness := 90 } : Team).form_alliance
        { name := "B", happiness := 60 } 15).2.1.alliances "A" = some 15) :=
  (c6_form_alliance { name := "A", happiness := 90 }
    { name := "B", happiness := 60 } 15).2.2.2.2.2.2.2.2.2 rfl rfl rfl

/-- C5: `tick_alliances` returns exactly the names of the alliances
whose counter was ≤ 1 (in iteration order) as the expired list and
removes them; every surviving counter is decremented by 1; a duration-1
alliance is removed and reported on the very next tick, a duration-5
alliance ticks to 4 and is not expired, and ticking exactly `duration`
times fully expires an alliance. -/
theorem c5_tick_alliances (t : Team) :
    ((t.tick_alliances).1
        = (t.alliances.filter (fun p => decide (p.2 ≤ 1))).map Prod.fst) ∧
    ((t.alliances.map Prod.fst).Nodup →
      (∀ n : String,
        alookup (t.tick_alliances).2.alliances n
          = match alookup t.alliances n with
            | some d => if 1 < d then some (d - 1) else none
            | none => none) ∧
      (∀ (n : String) (d : Int), alookup t.alliances n = some d → d ≤ 1 →
        n ∈ (t.tick_alliances).1 ∧
        alookup (t.tick_alliances).2.alliances n = none) ∧
      (∀ (n : String) (d : Int), alookup t.alliances n = some d → 1 < d →
        alookup (t.tick_alliances).2.alliances n = some (d - 1) ∧
        n ∉ (t.tick_alliances).1) ∧
      (∀ (n : String) (d : Int), alookup t.alliances n = some d → 1 ≤ d →
        alookup (((fun u : Team => (u.tick_alliances).2)^[d.toNat] t).alliances) n
          = none)) := by
  refine ⟨tick_alliances_expired t, ?_⟩
  intro hnd
  have hlook : ∀ n : String,
      alookup (t.tick_alliances).2.alliances n
        = match alookup t.alliances n with
          | some d => if 1 < d then some (d - 1) else none
          | none => none := by
    intro n
    rw [tick_alliances_post hnd]
    exact alookup_filter_decrement _ hnd n
  refine ⟨hlook, ?_, ?_, ?_⟩
  · intro n d hl hd
    refine ⟨tick_expired_of_due hl hd, ?_⟩
    rw [hlook n, hl]
    simp [not_lt.mpr hd]
  · intro n d hl hd
    constructor
    · rw [hlook n, hl]
      simp [hd]
    · rw [tick_alliances_expired]
      intro hmem
      obtain ⟨p, hpmem, hp1⟩ := List.mem_map.mp hmem
      have hpin := List.mem_filter.mp hpmem
      have hpl : alookup t.alliances p.1 = some p.2 :=
        alookup_of_mem_nodup hnd hpin.1
      rw [hp1, hl] at hpl
      have hdp : d = p.2 := Option.some_inj.mp hpl
      have hle : p.2 ≤ 1 := by simpa using hpin.2
      omega
  · intro n d hl hd
    exact tick_iter_expire n t d hnd hl hd

/-- Witness for C5: on alliances `[("B", 1), ("C", 5)]`, the tick
expires and removes `B` and ticks `C` to 4. -/
theorem c5_tick_alliances_witness :
    ("B" ∈ (wTeamTick.tick_alliances).1) ∧
    (alookup (wTeamTick.tick_alliances).2.alliances "B" = none) ∧
    (alookup (wTeamTick.tick_alliances).2.alliances "C" = some 4) ∧
    ("C" ∉ (wTeamTick.tick_alliances).1) := by
  have h := (c5_tick_alliances wTeamTick).2 (by decide)
  have hB := h.2.1 "B" 1 (by decide) (by decide)
  have hC := h.2.2.1 "C" 5 (by decide) (by decide)
  exact ⟨hB.1, hB.2, hC.1, hC.2⟩

/-- C4: the win check transitions to the terminal GAME_OVER phase,
recording the (first) fully-owning faction as winner, exactly when some
faction's owned-territory count equals the total map territory count;
once the phase is GAME_OVER, `update` performs no further stat,
alliance, or turn processing - the state is returned unchanged,
whatever the input/AI phase handlers would do. -/
theorem c4_win_check (key_holds ai_step : OState → OState) (s : OState) :
    (s.phase = GamePhase.GAME_OVER → Game.update key_holds ai_step s = s) ∧
    (s.phase ≠ GamePhase.GAME_OVER →
      ((Game.check_win_condition s).phase = GamePhase.GAME_OVER
        ↔ ∃ t ∈ s.teams, t.territories.length = s.total_territories)) ∧
    (∀ t : Team,
      s.teams.find? (fun t => t.territories.length == s.total_territories)
          = some t →
      (Game.check_win_condition s).winner = some t.name ∧
      (Game.check_win_condition s).phase = GamePhase.GAME_OVER) :=
  ⟨update_terminal key_holds ai_step s,
   check_win_phase_iff s,
   fun t h => check_win_fired s t h⟩

/-- Witness for C4: a terminal state passes through `update` unchanged,
and a state where faction `A` owns both territories fires the win
check. -/
theorem c4_win_check_witness :
    (Game.update id id wOver = wOver) ∧
    ((Game.check_win_condition wAllOwned).phase = GamePhase.GAME_OVER) := by
  refine ⟨(c4_win_check id id wOver).1 rfl, ?_⟩
  exact ((c4_win_check id id wAllOwned).2.1 (by decide)).mpr
    ⟨{ name := "A", territories := [0, 1] }, by decide, by decide⟩

/-- C10: the AI spending step terminates for every starting resources
value (the loop is a total function; each purchase strictly decreases
resources by exactly the fixed increment), spends resources down in
fixed increments split between happiness and military, and on return
leaves resources strictly below the spend increment while conserving
the sum resources + happiness + military_power. -/
theorem c10_ai_spending (team : Team) (happiness_frac : ℚ) (draws : ℕ → ℚ) :
    ((AIController.decide_spending team happiness_frac draws).resources
        < RESOURCE_SPEND_INCREMENT) ∧
    ((AIController.decide_spending team happiness_frac draws).resources
        + (AIController.decide_spending team happiness_frac draws).happiness
        + (AIController.decide_spending team happiness_frac draws).military_power
      = team.resources + team.happiness + team.military_power) ∧
    (team.happiness
        ≤ (AIController.decide_spending team happiness_frac draws).happiness) ∧
    (team.military_power
        ≤ (AIController.decide_spending team happiness_frac draws).military_power) ∧
    (∀ (t : Team) (d : ℚ), RESOURCE_SPEND_INCREMENT ≤ t.resources →
      (AIController.spend_step t happiness_frac d).resources
        = t.resources - RESOURCE_SPEND_INCREMENT) := by
  have h := spend_loop_post
    (Nat.floor (team.resources / RESOURCE_SPEND_INCREMENT))
    team happiness_frac draws 0 (le_refl _)
  exact ⟨h.1, h.2.1, h.2.2.1, h.2.2.2,
         fun t d ht => spend_step_resources t happiness_frac d ht⟩

/-- Witness for C10: a single purchase at 100 resources leaves exactly
90. -/
theorem c10_ai_spending_witness :
    (AIController.spend_step { name := "A" } (1 / 2) (0 : ℚ)).resources = 90 := by
  have h := (c10_ai_spending { name := "A" } (1 / 2) (fun _ => 0)).2.2.2.2
    { name := "A" } 0 (by norm_num [RESOURCE_SPEND_INCREMENT])
  rw [h]
  norm_num [RESOURCE_SPEND_INCREMENT]

/-- C9: for every valid attack whose target is null (the destination is
unowned and adjacent to an actor-owned source), `execute` returns
success, the actor gains the territory (owner back-reference updated),
and none of the actor's stats change - in particular military power is
exactly unchanged (free capture, no combat roll). -/
theorem c9_free_capture (a : AttackAction) (s : GState) (u1 u2 : ℚ)
    {actorTeam : Team}
    (hc : s.consistent) (hv : a.is_valid s = true) (ht : a.target = none)
    (hA : s.findTeam a.actor = some actorTeam) :
    ((a.execute u1 u2 s).1.success = true) ∧
    ((a.execute u1 u2 s).2.findTeam a.actor
        = some { actorTeam with
                 territories := actorTeam.territories ++ [a.to_territory] }) ∧
    (((a.execute u1 u2 s).2.findTerr a.to_territory).map Territory.owner
        = some (some a.actor)) ∧
    (((a.execute u1 u2 s).2.findTeam a.actor).map Team.military_power
        = some actorTeam.military_power) ∧
    (((a.execute u1 u2 s).2.findTeam a.actor).map Team.resources
        = some actorTeam.resources) ∧
    (((a.execute u1 u2 s).2.findTeam a.actor).map Team.happiness
        = some actorTeam.happiness) := by
  obtain ⟨fromT, toT, actorTeam', hF, hT, hA', hfo, hto_ne, hto_eq, hadj, _⟩ :=
    attack_is_valid_elim hv
  have hown : toT.owner = none := by rw [hto_eq, ht]
  have htid : toT.id = a.to_territory := (findTerr_mem hT).2
  have hnotmem : a.to_territory ∉ actorTeam.territories := by
    have hiff := hc.2.2.2 toT (findTerr_mem hT).1 actorTeam (findTeam_mem hA).1
    rw [htid] at hiff
    intro hmem
    have hcontra := hiff.mp hmem
    rw [hown] at hcontra
    cases hcontra
  have hexec := attack_execute_free a s u1 u2 hv ht
  have heq : (a.execute u1 u2 s).2 = s.add_territory a.actor a.to_territory := by
    rw [hexec]
  have hadd := add_territory_eq hA hnotmem
  have h2 : (a.execute u1 u2 s).2.findTeam a.actor
      = some { actorTeam with
               territories := actorTeam.territories ++ [a.to_territory] } := by
    rw [heq, hadd, findTeam_setTerrOwner,
      findTeam_modifyTeam_self s a.actor
        (fun t => { t with territories := t.territories ++ [a.to_territory] })
        (fun t => rfl), hA]
    rfl
  refine ⟨by rw [hexec], h2, ?_, by rw [h2]; rfl, by rw [h2]; rfl, by rw [h2]; rfl⟩
  rw [heq, hadd, findTerr_setTerrOwner_self, findTerr_modifyTeam, hT]
  rfl

/-- Witness for C9: faction `A` freely captures the unowned adjacent
territory 1 with no military-power change. -/
theorem c9_free_capture_witness :
    ((AttackAction.execute ⟨"A", none, 0, 1⟩ 0 0 wState).1.success = true) ∧
    (((AttackAction.execute ⟨"A", none, 0, 1⟩ 0 0 wState).2.findTeam "A").map
        Team.military_power = some wTeamA.military_power) := by
  have h := @c9_free_capture ⟨"A", none, 0, 1⟩ wState 0 0 wTeamA
    (by decide) (by decide) rfl (by decide)
  exact ⟨h.1, h.2.2.2.1⟩

/-- C1: for every valid attack with a non-null target, with
attacker_roll = actor.military_power * u1 and defender_roll =
target.military_power * u2 (u1, u2 the two fresh uniform draws): a
strictly greater attacker roll captures the territory (the defender
loses it, the actor gains it, the owner back-reference moves to the
actor) and the actor's military power becomes exactly 0.9 times its
prior value; otherwise - including exact ties - the defender retains
the territory (the map is unchanged) and the actor's military power
becomes exactly 0.8 times its prior value.  Ties favor the defender. -/
theorem c1_attack_combat (a : AttackAction) (s : GState) (u1 u2 : ℚ)
    {tn : String} {actorTeam targetTeam : Team}
    (hc : s.consistent) (hv : a.is_valid s = true) (ht : a.target = some tn)
    (hA : s.findTeam a.actor = some actorTeam)
    (hB : s.findTeam tn = some targetTeam) :
    (actorTeam.military_power * u1 > targetTeam.military_power * u2 →
      (a.execute u1 u2 s).1.success = true ∧
      (a.execute u1 u2 s).2.findTeam a.actor
        = some { actorTeam with
                 territories := actorTeam.territories ++ [a.to_territory],
                 military_power := actorTeam.military_power * (9 / 10) } ∧
      (a.execute u1 u2 s).2.findTeam tn
        = some { targetTeam with
                 territories := targetTeam.territories.erase a.to_territory } ∧
      ((a.execute u1 u2 s).2.findTerr a.to_territory).map Territory.owner
        = some (some a.actor)) ∧
    (actorTeam.military_power * u1 ≤ targetTeam.military_power * u2 →
      (a.execute u1 u2 s).1.success = false ∧
      (a.execute u1 u2 s).2.terrs = s.terrs ∧
      (a.execute u1 u2 s).2.findTeam a.actor
        = some { actorTeam with
                 military_power := actorTeam.military_power * (8 / 10) } ∧
      (a.execute u1 u2 s).2.findTeam tn = some targetTeam) := by
  obtain ⟨fromT, toT, actorTeam', hF, hT, hA', hfo, hto_ne, hto_eq, hadj, _⟩ :=
    attack_is_valid_elim hv
  have htowner : toT.owner = some tn := by rw [hto_eq, ht]
  have htid := (findTerr_mem hT).2
  have htnne : tn ≠ a.actor := by
    intro he
    apply hto_ne
    rw [htowner, he]
  have hactne : a.actor ≠ tn := fun he => htnne he.symm
  have hBmem := findTeam_mem hB
  have htmem : a.to_territory ∈ targetTeam.territories := by
    have hiff := hc.2.2.2 toT (findTerr_mem hT).1 targetTeam hBmem.1
    rw [htid] at hiff
    exact hiff.mpr (by rw [htowner, hBmem.2])
  have hnotmemA : a.to_territory ∉ actorTeam.territories := by
    have hiff := hc.2.2.2 toT (findTerr_mem hT).1 actorTeam (findTeam_mem hA).1
    rw [htid] at hiff
    intro hmem
    have hcontra := hiff.mp hmem
    rw [htowner, (findTeam_mem hA).2] at hcontra
    exact htnne (Option.some_inj.mp hcontra)
  constructor
  · -- attacker wins
    intro hgt
    have hexec := attack_execute_win a s u1 u2 hv ht hA hB hgt
    have hrem := remove_territory_eq hB htmem
    have hA1 : (s.remove_territory tn a.to_territory).findTeam a.actor
        = some actorTeam := by
      rw [hrem, findTeam_setTerrOwner,
        findTeam_modifyTeam_ne s tn a.actor
          (fun t => { t with territories := t.territories.erase a.to_territory })
          (fun t => rfl) hactne, hA]
    have hadd := add_territory_eq hA1 hnotmemA
    refine ⟨by rw [hexec], ?_, ?_, ?_⟩
    · rw [show (a.execute u1 u2 s).2 = _ from congrArg Prod.snd hexec,
        findTeam_modifyTeam_self _ a.actor
          (fun t => { t with military_power := t.military_power * (9 / 10) })
          (fun t => rfl),
        hadd, findTeam_setTerrOwner,
        findTeam_modifyTeam_self _ a.actor
          (fun t => { t with territories := t.territories ++ [a.to_territory] })
          (fun t => rfl),
        hA1]
      rfl
    · rw [show (a.execute u1 u2 s).2 = _ from congrArg Prod.snd hexec,
        findTeam_modifyTeam_ne _ a.actor tn
          (fun t => { t with military_power := t.military_power * (9 / 10) })
          (fun t => rfl) htnne,
        hadd, findTeam_setTerrOwner,
        findTeam_modifyTeam_ne _ a.actor tn
          (fun t => { t with territories := t.territories ++ [a.to_territory] })
          (fun t => rfl) htnne,
        hrem, findTeam_setTerrOwner,
        findTeam_modifyTeam_self _ tn
          (fun t => { t with territories := t.territories.erase a.to_territory })
          (fun t => rfl),
        hB]
      rfl
    · rw [show (a.execute u1 u2 s).2 = _ from congrArg Prod.snd hexec,
        findTerr_modifyTeam, hadd, findTerr_setTerrOwner_self, findTerr_modifyTeam,
        hrem, findTerr_setTerrOwner_self, findTerr_modifyTeam, hT]
      rfl
  · -- defender wins or ties
    intro hle
    have hexec := attack_execute_lose a s u1 u2 hv ht hA hB hle
    refine ⟨by rw [hexec], by rw [hexec]; rfl, ?_, ?_⟩
    · rw [show (a.execute u1 u2 s).2 = _ from congrArg Prod.snd hexec,
        findTeam_modifyTeam_self _ a.actor
          (fun t => { t with military_power := t.military_power * (8 / 10) })
          (fun t => rfl),
        hA]
      rfl
    · rw [show (a.execute u1 u2 s).2 = _ from congrArg Prod.snd hexec,
        findTeam_modifyTeam_ne _ a.actor tn
          (fun t => { t with military_power := t.military_power * (8 / 10) })
          (fun t => rfl) htnne,
        hB]

/-- Witness for C1: in the fixture world, `A` attacks `B`'s territory 2
from territory 0; with draws u1 = 1, u2 = 0 the attacker wins, captures
the territory and drops to 0.9 of its military power. -/
theorem c1_attack_combat_witness :
    ((AttackAction.execute ⟨"A", some "B", 0, 2⟩ 1 0 wState).1.success = true) ∧
    ((AttackAction.execute ⟨"A", some "B", 0, 2⟩ 1 0 wState).2.findTeam "A"
      = some { wTeamA with
               territories := wTeamA.territories ++ [2],
               military_power := wTeamA.military_power * (9 / 10) }) ∧
    (((AttackAction.execute ⟨"A", some "B", 0, 2⟩ 1 0 wState).2.findTerr 2).map
        Territory.owner = some (some "A")) := by
  have h := (@c1_attack_combat ⟨"A", some "B", 0, 2⟩ wState 1 0 "B" wTeamA wTeamB
    (by decide) (by decide) rfl (by decide) (by decide)).1
    (by norm_num [wTeamA, wTeamB])
  exact ⟨h.1, h.2.1, h.2.2.2⟩

/-- C2 (amended): whenever an action fails for *invalidity* no game
state is mutated: an invalid attack returns success=false, message
"Invalid attack" and the state untouched, and Negotiate, AcceptAlliance
and DeclineAlliance leave the state untouched whenever they return
success=false.  The one exception in the code is a *valid* attack that
loses the combat roll: it returns success=false and yet fully applies
the 20% military-power penalty to the actor. -/
theorem c2_no_mutation_on_failure :
    (∀ (a : AttackAction) (s : GState) (u1 u2 : ℚ), a.is_valid s = false →
      a.execute u1 u2 s = (⟨false, "Invalid attack", none⟩, s)) ∧
    (∀ (a : NegotiateAction) (minBorders : Nat) (s : GState),
      (a.execute minBorders s).1.success = false →
      (a.execute minBorders s).2 = s) ∧
    (∀ (a : AllianceResponseAction) (d : Int) (s : GState),
      (a.executeAccept d s).1.success = false → (a.executeAccept d s).2 = s) ∧
    (∀ (a : AllianceResponseAction) (s : GState),
      (a.executeDecline s).1.success = false → (a.executeDecline s).2 = s) ∧
    (∀ (a : AttackAction) (s : GState) (u1 u2 : ℚ) (tn : String)
        (actorTeam targetTeam : Team),
      a.is_valid s = true → a.target = some tn →
      s.findTeam a.actor = some actorTeam → s.findTeam tn = some targetTeam →
      actorTeam.military_power * u1 ≤ targetTeam.military_power * u2 →
      (a.execute u1 u2 s).1.success = false ∧
      (a.execute u1 u2 s).2
        = s.modifyTeam a.actor
            (fun t => { t with military_power := t.military_power * (8 / 10) })) := by
  refine ⟨?_, ?_, ?_, ?_, ?_⟩
  · intro a s u1 u2 h
    exact attack_execute_invalid a s u1 u2 h
  · intro a minBorders s h
    unfold NegotiateAction.execute at h ⊢
    by_cases hval : a.is_valid minBorders s = true
    · rw [if_neg (not_not_intro hval)] at h ⊢
      rcases htg : a.target with _ | tn
      · rfl
      · rw [htg] at h
        cases h
    · rw [if_pos hval]
      dsimp only
      split <;> rfl
  · intro a d s h
    unfold AllianceResponseAction.executeAccept at h ⊢
    by_cases hval : a.is_valid s = true
    · rw [if_neg (not_not_intro hval)] at h ⊢
      rcases htg : a.target with _ | tn
      · rfl
      · rw [htg] at h
        cases h
    · rw [if_pos hval]
  · intro a s h
    unfold AllianceResponseAction.executeDecline at h ⊢
    by_cases hval : a.is_valid s = true
    · rw [if_neg (not_not_intro hval)] at h ⊢
      rcases htg : a.target with _ | tn
      · rfl
      · rw [htg] at h
        cases h
    · rw [if_pos hval]
  · intro a s u1 u2 tn actorTeam targetTeam hv ht hA hB hle
    have hexec := attack_execute_lose a s u1 u2 hv ht hA hB hle
    exact ⟨by rw [hexec], by rw [hexec]⟩

/-- Counterexample to C2 as stated: in the fixture world, the *valid*
attack by `A` on `B`'s territory with draws u1 = 0, u2 = 1 loses the
combat roll, returns success = false, and yet the game state is
mutated (the actor's military power drops from 25 to 20). -/
theorem c2_counterexample :
    ((AttackAction.execute ⟨"A", some "B", 0, 2⟩ 0 1 wState).1.success = false) ∧
    ((AttackAction.execute ⟨"A", some "B", 0, 2⟩ 0 1 wState).2 ≠ wState) := by
  have hexec := @attack_execute_lose ⟨"A", some "B", 0, 2⟩ wState 0 1 "B"
    wTeamA wTeamB (by decide) rfl (by decide) (by decide)
    (by norm_num [wTeamA, wTeamB])
  refine ⟨by rw [hexec], ?_⟩
  intro heq
  have h1 : (AttackAction.execute ⟨"A", some "B", 0, 2⟩ 0 1 wState).2.findTeam "A"
      = some { wTeamA with military_power := wTeamA.military_power * (8 / 10) } := by
    rw [show (AttackAction.execute ⟨"A", some "B", 0, 2⟩ 0 1 wState).2 = _ from
        congrArg Prod.snd hexec,
      findTeam_modifyTeam_self _ "A"
        (fun t => { t with military_power := t.military_power * (8 / 10) })
        (fun t => rfl),
      show wState.findTeam "A" = some wTeamA from by decide]
    rfl
  rw [heq, show wState.findTeam "A" = some wTeamA from by decide] at h1
  have h4 := congrArg Team.military_power (Option.some_inj.mp h1)
  norm_num [wTeamA] at h4

/-- Witness for C2: a concrete invalid attack (source territory not
owned by the actor) fails with no mutation. -/
theorem c2_no_mutation_on_failure_witness :
    AttackAction.execute ⟨"A", none, 2, 1⟩ 0 0 wState
      = (⟨false, "Invalid attack", none⟩, wState) :=
  c2_no_mutation_on_failure.1 ⟨"A", none, 2, 1⟩ wState 0 0 (by decide)

/-- C3: in every reachable state, a territory is a member of a
faction's owned list iff its owner back-reference is that faction; the
invariant is preserved by `remove_territory` unconditionally and by
`add_territory` whenever the territory is unowned or already the
caller's (the situation at every call site - conquest removes from the
defender first); adding an already-owned or removing an absent
territory is a no-op. -/
theorem c3_ownership_invariant :
    (∀ s : GState, Reachable s →
      ∀ T ∈ s.terrs, ∀ F ∈ s.teams,
        (T.id ∈ F.territories ↔ T.owner = some F.name)) ∧
    (∀ (s : GState) (n : String) (tid : Nat),
      s.consistent → (s.remove_territory n tid).consistent) ∧
    (∀ (s : GState) (n : String) (tid : Nat),
      s.consistent →
      (∀ T ∈ s.terrs, T.id = tid → (T.owner = none ∨ T.owner = some n)) →
      (s.add_territory n tid).consistent) ∧
    (∀ (s : GState) (n : String) (team : Team) (tid : Nat),
      s.findTeam n = some team → tid ∈ team.territories →
      s.add_territory n tid = s) ∧
    (∀ (s : GState) (n : String) (team : Team) (tid : Nat),
      s.findTeam n = some team → tid ∉ team.territories →
      s.remove_territory n tid = s) := by
  refine ⟨?_, ?_, ?_, ?_, ?_⟩
  · intro s h T hT F hF
    exact (reachable_consistent h).2.2.2 T hT F hF
  · intro s n tid hc
    exact consistent_remove n tid hc
  · intro s n tid hc hun
    exact consistent_add n tid hc hun
  · intro s n team tid hfind hmem
    exact add_territory_noop hfind hmem
  · intro s n team tid hfind hmem
    exact remove_territory_noop hfind hmem

/-- Witness for C3: the invariant instance in a concrete freshly-set-up
reachable state, and a concrete no-op re-add. -/
theorem c3_ownership_invariant_witness :
    ((({ id := 0, neighbor_ids := [1] } : Territory).id
        ∈ ({ name := "A" } : Team).territories
      ↔ ({ id := 0, neighbor_ids := [1] } : Territory).owner = some "A")) ∧
    (wState.add_territory "A" 0 = wState) := by
  constructor
  · exact c3_ownership_invariant.1 wFresh
      (Reachable.init wFresh (by decide) (by decide) (by decide) (by decide))
      { id := 0, neighbor_ids := [1] } (by decide) { name := "A" } (by decide)
  · exact c3_ownership_invariant.2.2.2.1 wState "A" wTeamA 0 (by decide) (by decide)

end Vibegame
